import Mathlib

/-!
# issuetracker: a verification development of `main.go`

The program fetches the issues of a repository page by page, caches them in
`issues.json`, files every item under a day in one of two maps (pull requests,
issues), and prints one line per day.  This file embeds the functions of
`main.go` as Lean definitions and proves properties of them.

Conventions of the embedding:

* a Go pointer to a field (`*string`, `*time.Time`, `*PullRequestLinks`) is an
  `Option`; dereferencing `none` is the nil-pointer panic and makes the
  enclosing function return `none`;
* a `*github.Issue` produced by `&allIssues[index]` is the index itself, read
  through the snapshot `allIssues`;
* a Go `map[string][]*github.Issue` is an association list with distinct keys;
  the order in which `range` visits the keys is a parameter;
* `int` counters are unbounded integers: they count elements of a slice and
  cannot reach `2^63`.
-/

namespace IssueTracker

/-! ## The `time` package, as far as `main.go` uses it -/

/-- A `time.Time` without monotonic reading: the instant as seconds and
nanoseconds since the Unix epoch, and the offset (seconds east of UTC) that the
location of the value has at that instant. -/
structure Time where
  sec : Int
  nsec : Nat
  offset : Int
deriving DecidableEq, Repr

/-- Days since 1970-01-01 of the civil day on which the instant falls in the
location of the value. -/
def Time.days (t : Time) : Int := (t.sec + t.offset) / 86400

/-- Year, month and day of the proleptic Gregorian calendar for a day count
since 1970-01-01, as `Time.Date` returns them. -/
def civil (z0 : Int) : Int × Int × Int :=
  let z := z0 + 719468
  let era := z / 146097
  let doe := z - era * 146097
  let yoe := (doe - doe / 1460 + doe / 36524 - doe / 146096) / 365
  let doy := doe - (365 * yoe + yoe / 4 - yoe / 100)
  let mp := (5 * doy + 2) / 153
  let d := doy - (153 * mp + 2) / 5 + 1
  let m := if mp < 10 then mp + 3 else mp - 9
  let y := yoe + era * 400
  (if m ≤ 2 then y + 1 else y, m, d)

/-- The decimal digits of a natural number, padded with zeros on the left up
to `width` characters. -/
def padDigits (width : Nat) (u : Nat) : String :=
  let s := Nat.repr u
  String.mk (List.replicate (width - s.length) '0') ++ s

/-- Go `appendInt`: a minus sign for a negative number, then the zero-padded
digits of its absolute value. -/
def appendInt (x : Int) (width : Nat) : String :=
  if x < 0 then "-" ++ padDigits width x.natAbs else padDigits width x.natAbs

/-- The call `t.Format(DATEFORMAT)` with `DATEFORMAT = "2006-01-02"`. -/
def Time.Format (t : Time) : String :=
  let (y, m, d) := civil t.days
  appendInt y 4 ++ "-" ++ appendInt m 2 ++ "-" ++ appendInt d 2

/-! ## Durations and `float64` arithmetic -/

/-- The smallest `time.Duration`, in nanoseconds. -/
def minDuration : Int := -9223372036854775808

/-- The largest `time.Duration`, in nanoseconds. -/
def maxDuration : Int := 9223372036854775807

/-- The method `t.Sub(u)`: the difference of the two instants in nanoseconds,
replaced by the smallest or largest duration when it does not fit. -/
def Time.Sub (t u : Time) : Int :=
  let d := (t.sec - u.sec) * 1000000000 + ((t.nsec : Int) - (u.nsec : Int))
  if d < minDuration then minDuration else if maxDuration < d then maxDuration else d

/-- Rounding of a rational to the nearest integer, a tie going to the even
neighbour. -/
def roundHalfEven (q : ℚ) : Int :=
  if q - ⌊q⌋ < 1 / 2 then ⌊q⌋
  else if 1 / 2 < q - ⌊q⌋ then ⌊q⌋ + 1
  else if ⌊q⌋ % 2 = 0 then ⌊q⌋ else ⌊q⌋ + 1

/-- The exponent of the spacing of `float64` values around `x`: 52 below the
binary exponent of `x`, and never below that of the subnormal numbers. -/
def ulpExp (x : ℚ) : Int := max (Int.log 2 |x| - 52) (-1074)

/-- The `float64` nearest to the real number `x` (round to nearest, ties to
even), which is the result of every `float64` operation whose exact result is
`x`.  Overflow to infinity is left out: every value that `main.go` computes is
below `2^23` in absolute value. -/
def roundF64 (x : ℚ) : ℚ := (roundHalfEven (x / 2 ^ ulpExp x) : ℚ) * 2 ^ ulpExp x

/-- The constant `time.Hour`, in nanoseconds. -/
def Hour : Int := 3600000000000

/-- The method `Duration.Hours` of the standard library:
`float64(d / Hour) + float64(d % Hour) / (60 * 60 * 1e9)`, the division and the
remainder of the integers being those of Go, which truncate toward zero, and
every conversion and `float64` operation being rounded. -/
def Hours (d : Int) : ℚ :=
  roundF64 (roundF64 (Int.tdiv d Hour) + roundF64 (roundF64 (Int.tmod d Hour) / 3600000000000))

/-- The conversion `int(f)` of a `float64` within the range of `int`: the
fraction is discarded. -/
def truncToInt (f : ℚ) : Int := if 0 ≤ f then ⌊f⌋ else ⌈f⌉

/-- The expression `int(d.Hours() / 24)`. -/
def wholeDays (d : Int) : Int := truncToInt (roundF64 (Hours d / 24))

/-! ## The data model -/

/-- The constant `CLOSED` of `main.go`. -/
def CLOSED : String := "closed"

/-- The `github.PullRequestLinks` record; `main.go` only tests the pointer to
it against nil. -/
structure PullRequestLinks where
  URL : Option String
  HTMLURL : Option String
  DiffURL : Option String
  PatchURL : Option String
deriving DecidableEq, Repr

/-- The fields of `github.Issue` that `main.go` reads. -/
structure Issue where
  State : Option String
  CreatedAt : Option Time
  ClosedAt : Option Time
  PullRequestLinks : Option PullRequestLinks
deriving DecidableEq, Repr

/-- A `*github.Issue` obtained as `&allIssues[index]`. -/
abbrev IssuePtr := Nat

/-- Dereference of an issue pointer in the snapshot. -/
def deref (allIssues : List Issue) (p : IssuePtr) : Option Issue := allIssues[p]?

/-- The struct `myIssue`: the two counters of a category. -/
structure myIssue where
  «open» : Int
  closed : Int
deriving DecidableEq, Repr

/-- The struct `stat`. -/
structure stat where
  day : String
  issues : List IssuePtr
  «open» : Int
  closed : Int
deriving DecidableEq, Repr

/-- The method `net` of `stat`. -/
def stat.net (s : stat) : Int := s.open - s.closed

/-- The body of the loop of `newStat` for one issue. -/
def newStatStep (allIssues : List Issue) (nStat : stat) (p : IssuePtr) : Option stat := do
  let issue ← deref allIssues p
  let state ← issue.State
  if state = "closed" then
    pure { nStat with closed := nStat.closed + 1 }
  else
    pure { nStat with «open» := nStat.open + 1 }

/-- The function `newStat`. -/
def newStat (allIssues : List Issue) (day : String) (issues : List IssuePtr) : Option stat :=
  issues.foldlM (newStatStep allIssues) ⟨day, issues, 0, 0⟩

/-! ## The classification loop of `main` -/

/-- A Go `map[string][]*github.Issue`. -/
abbrev DayMap := AList (fun _ : String => List IssuePtr)

/-- The read `m[day]`: the slice stored under the key, nil when the key is
absent. -/
def DayMap.get (m : DayMap) (day : String) : List IssuePtr := (m.lookup day).getD []

/-- The statement `m[day] = append(m[day], issue)`. -/
def DayMap.appendAt (m : DayMap) (day : String) (issue : IssuePtr) : DayMap :=
  m.insert day (DayMap.get m day ++ [issue])

/-- All pointers stored in the map, bucket after bucket. -/
def DayMap.items (m : DayMap) : List IssuePtr := (m.entries.map (fun e => e.2)).flatten

/-- The variables that the classification loop of `main` updates. -/
structure Buckets where
  typePullRequest : myIssue
  typeIssue : myIssue
  issuePerDay : DayMap
  prPerDay : DayMap

/-- The values of the variables before the loop. -/
def Buckets.init : Buckets := ⟨⟨0, 0⟩, ⟨0, 0⟩, ∅, ∅⟩

/-- One iteration of the loop `for index := range allIssues` of `main`. -/
def classifyStep (allIssues : List Issue) (s : Buckets) (index : Nat) : Option Buckets := do
  let issue ← deref allIssues index
  if issue.PullRequestLinks.isSome then
    let state ← issue.State
    if state = CLOSED then
      let closedAt ← issue.ClosedAt
      pure { s with
        typePullRequest := { s.typePullRequest with closed := s.typePullRequest.closed + 1 }
        prPerDay := s.prPerDay.appendAt closedAt.Format index }
    else
      let createdAt ← issue.CreatedAt
      pure { s with
        typePullRequest := { s.typePullRequest with «open» := s.typePullRequest.open + 1 }
        prPerDay := s.prPerDay.appendAt createdAt.Format index }
  else
    let state ← issue.State
    if state = CLOSED then
      let closedAt ← issue.ClosedAt
      pure { s with
        typeIssue := { s.typeIssue with closed := s.typeIssue.closed + 1 }
        issuePerDay := s.issuePerDay.appendAt closedAt.Format index }
    else
      let createdAt ← issue.CreatedAt
      pure { s with
        typeIssue := { s.typeIssue with «open» := s.typeIssue.open + 1 }
        issuePerDay := s.issuePerDay.appendAt createdAt.Format index }

/-- The classification loop of `main` on the snapshot `allIssues`. -/
def classify (allIssues : List Issue) : Option Buckets :=
  (List.range allIssues.length).foldlM (classifyStep allIssues) Buckets.init

/-- An item is well formed when its state and creation time are present and
its closing time is present whenever its state is `"closed"`. -/
def Issue.WellFormed (issue : Issue) : Prop :=
  issue.State.isSome ∧ issue.CreatedAt.isSome ∧ (issue.State = some CLOSED → issue.ClosedAt.isSome)

instance (issue : Issue) : Decidable issue.WellFormed := by
  unfold Issue.WellFormed; infer_instance

/-- The bucket day of an item in the words of the specification: the day of
`closedAt` for a closed item, the day of `createdAt` otherwise. -/
def bucketDay (issue : Issue) : Option String :=
  if issue.State = some CLOSED then issue.ClosedAt.map Time.Format
  else issue.CreatedAt.map Time.Format

/-- An item has pull-request linkage. -/
def Issue.isPullRequest (issue : Issue) : Bool := issue.PullRequestLinks.isSome

/-- The state of an item is `"closed"`. -/
def Issue.isClosed (issue : Issue) : Bool := issue.State == some CLOSED

/-! ## The function `display` -/

/-- The `duration` that `display` computes for one issue; `now` is the value
that `time.Now()` returns for it. -/
def itemAge (now : Time) (issue : Issue) : Option Int := do
  let state ← issue.State
  if state = CLOSED then
    let createdAt ← issue.CreatedAt
    let closedAt ← issue.ClosedAt
    pure (wholeDays (createdAt.Sub closedAt))
  else
    let createdAt ← issue.CreatedAt
    pure (wholeDays (now.Sub createdAt))

/-- The call `sort.Sort(itemStat)`, which orders the records by `Less`, that
is by `day`.  The days are the keys of a map and therefore distinct, so every
correct sorting algorithm returns this list (`sortStats_unique`). -/
def sortStats (itemStat : List stat) : List stat :=
  itemStat.insertionSort (fun a b => a.day ≤ b.day)

/-- The first loop of `display` followed by `sort.Sort`: one record per key, in
the order `order` in which `range` visits the keys of the map, then sorted. -/
def displayStats (allIssues : List Issue) (itemPerDay : DayMap) (order : List String) :
    Option (List stat) := do
  let itemStat ← order.mapM (fun day => newStat allIssues day (itemPerDay.get day))
  pure (sortStats itemStat)

/-- One line printed by `display`: the day, the number of items, the net
change, and the state and duration of every item. -/
structure Line where
  day : String
  count : Nat
  net : Int
  items : List (String × Int)
deriving DecidableEq, Repr

/-- The inner loop of `display`; `now j` is the reading of the clock for the
item at position `j` of the record. -/
def displayItems (allIssues : List Issue) (now : Nat → Time) (issues : List IssuePtr) :
    Option (List (String × Int)) :=
  issues.enum.mapM (fun jp => do
    let issue ← deref allIssues jp.2
    let duration ← itemAge (now jp.1) issue
    let state ← issue.State
    pure (state, duration))

/-- The function `display`: the header and the lines it prints.  `order` is the
order in which `range` visits the keys and `now i j` the reading of the clock
for item `j` of the `i`-th record. -/
def display (allIssues : List Issue) (now : Nat → Nat → Time) (name : String)
    (itemPerDay : DayMap) (order : List String) : Option (String × List Line) := do
  let itemStat ← displayStats allIssues itemPerDay order
  let lines ← itemStat.enum.mapM (fun ist => do
    let items ← displayItems allIssues (now ist.1) ist.2.issues
    pure (⟨ist.2.day, ist.2.issues.length, ist.2.net, items⟩ : Line))
  pure (name ++ "s per day", lines)

/-! ## The function `getAllIssuesFromGithub` -/

/-- The `github.Response`, of which the loop reads `NextPage`. -/
structure Response where
  NextPage : Int
deriving DecidableEq, Repr

/-- What `client.Issues.ListByRepo` returns: the issues of the page with a
response, or an error with no issues and the response when there is one (a
failing status or a body that does not decode) or nil (the request did not
reach the server). -/
inductive Reply where
  | ok (issues : List Issue) (response : Response)
  | failed (err : String) (response : Option Response)
deriving DecidableEq, Repr

/-- The value `issues` of a reply. -/
def Reply.issues : Reply → List Issue
  | .ok issues _ => issues
  | .failed _ _ => []

/-- The value `response` of a reply, `none` for nil. -/
def Reply.response : Reply → Option Response
  | .ok _ response => some response
  | .failed _ response => response

/-- The remote side: the reply to the `k`-th call of `ListByRepo` (counted from
zero) when it asks for page `page`. -/
abbrev Server := Nat → Int → Reply

/-- The ways in which a run ends without returning: a nil-pointer panic, the
exit with code 3, and the end of the fuel of the embedding. -/
inductive Stop where
  | panic
  | exit3
  | outOfFuel
deriving DecidableEq, Repr

/-- The loop of `getAllIssuesFromGithub`, started before the call number
`calls` with `option.ListOptions.Page = page`; `trace` lists the pages asked
for so far. -/
def fetchLoop (server : Server) :
    Nat → Nat → Int → List Issue → List Int → Except Stop (List Issue × List Int)
  | 0, _, _, _, _ => .error .outOfFuel
  | fuel + 1, calls, page, allIssues, trace =>
    let reply := server calls page
    match reply.response with
    | none => .error .panic
    | some response =>
      if response.NextPage = 0 then .ok (allIssues ++ reply.issues, trace ++ [page])
      else fetchLoop server fuel (calls + 1) response.NextPage (allIssues ++ reply.issues)
        (trace ++ [page])

/-- The function `getAllIssuesFromGithub`: the issues it returns and the pages
it asked for, one per request. -/
def getAllIssuesFromGithub (server : Server) (fuel : Nat) : Except Stop (List Issue × List Int) :=
  fetchLoop server fuel 0 0 [] []

/-! ## The function `main` -/

/-- The calls of `main` to the three functions that obtain or store the
snapshot. -/
inductive Call where
  | getAllIssuesFromGithub
  | writeIssueToDisk (allIssues : List Issue)
  | readIssuesFromDisk
deriving DecidableEq, Repr

/-- The surroundings of a run: the variable `GITHUB_TOKEN`, the file
`issues.json` (`none` when `os.Stat` reports an error, otherwise the slice into
which its content decodes) and the remote side. -/
structure Env where
  token : String
  disk : Option (List Issue)
  server : Server

/-- The report of a run of `main`: the totals of the two categories and the
output of the two calls of `display`. -/
structure Report where
  typePullRequest : myIssue
  typeIssue : myIssue
  pullRequests : String × List Line
  issues : String × List Line

/-- A run of `main`: the calls made to obtain the snapshot, the snapshot when
one was obtained, and the report or the reason why there is none. -/
structure Run where
  calls : List Call
  snapshot : Option (List Issue)
  result : Except Stop Report

/-- The part of `main` that follows the acquisition of the snapshot. -/
def report (allIssues : List Issue) (now : Bool → Nat → Nat → Time)
    (order : Bool → DayMap → List String) : Except Stop Report :=
  match classify allIssues with
  | none => .error .panic
  | some s =>
    match display allIssues (now true) "Pull Request" s.prPerDay (order true s.prPerDay) with
    | none => .error .panic
    | some pullRequests =>
      match display allIssues (now false) "Issue" s.issuePerDay (order false s.issuePerDay) with
      | none => .error .panic
      | some issues => .ok ⟨s.typePullRequest, s.typeIssue, pullRequests, issues⟩

/-- The function `main`.  `now b` and `order b` are the clock and the iteration
order of the map for the call of `display` on the pull requests (`b = true`)
and on the issues (`b = false`); `order b m` stands for the order in which
`range` visits the keys of `m`, some permutation of them. -/
def main (env : Env) (fuel : Nat) (now : Bool → Nat → Nat → Time)
    (order : Bool → DayMap → List String) : Run :=
  if env.token = "" then ⟨[], none, .error .exit3⟩
  else
    match env.disk with
    | none =>
      match getAllIssuesFromGithub env.server fuel with
      | .error e => ⟨[Call.getAllIssuesFromGithub], none, .error e⟩
      | .ok (allIssues, _) =>
        ⟨[Call.getAllIssuesFromGithub, Call.writeIssueToDisk allIssues], some allIssues,
          report allIssues now order⟩
    | some allIssues => ⟨[Call.readIssuesFromDisk], some allIssues, report allIssues now order⟩

/-! ## Auxiliary definitions of the statements -/

/-- The item behind a pointer exists and has the state `"closed"`. -/
def ptrClosed (allIssues : List Issue) (p : IssuePtr) : Bool :=
  match deref allIssues p with
  | some issue => issue.isClosed
  | none => false

/-- The item behind a pointer exists and its state is present. -/
def ptrHasState (allIssues : List Issue) (p : IssuePtr) : Prop :=
  ((deref allIssues p).bind Issue.State).isSome = true

instance (allIssues : List Issue) (p : IssuePtr) : Decidable (ptrHasState allIssues p) := by
  unfold ptrHasState; infer_instance

/-- The snapshot of the example of C2: three open and five closed items. -/
def netExample : List Issue :=
  List.replicate 3 ⟨some "open", none, none, none⟩ ++ List.replicate 5 ⟨some "closed", none, none, none⟩

/-- Item `i` of the snapshot has category `pr` (pull request or not) and
bucket day `d`. -/
def inBucket (allIssues : List Issue) (pr : Bool) (d : String) (i : Nat) : Bool :=
  match deref allIssues i with
  | some issue => issue.isPullRequest == pr && bucketDay issue == some d
  | none => false

/-- Item `i` of the snapshot has category `pr`. -/
def inCategory (allIssues : List Issue) (pr : Bool) (i : Nat) : Bool :=
  match deref allIssues i with
  | some issue => issue.isPullRequest == pr
  | none => false

/-- Item `i` of the snapshot has category `pr` and is closed or not as `closed`
says. -/
def inTotal (allIssues : List Issue) (pr closed : Bool) (i : Nat) : Bool :=
  match deref allIssues i with
  | some issue => issue.isPullRequest == pr && issue.isClosed == closed
  | none => false

/-- What holds of the variables of the classification loop after the items
`0 .. n-1` have been filed. -/
structure ClassifyInv (allIssues : List Issue) (n : Nat) (s : Buckets) : Prop where
  pr_get : ∀ d, s.prPerDay.get d = (List.range n).filter (inBucket allIssues true d)
  issue_get : ∀ d, s.issuePerDay.get d = (List.range n).filter (inBucket allIssues false d)
  pr_mem : ∀ d, d ∈ s.prPerDay → s.prPerDay.get d ≠ []
  issue_mem : ∀ d, d ∈ s.issuePerDay → s.issuePerDay.get d ≠ []
  pr_items : s.prPerDay.items.Perm ((List.range n).filter (inCategory allIssues true))
  issue_items : s.issuePerDay.items.Perm ((List.range n).filter (inCategory allIssues false))
  pr_closed : s.typePullRequest.closed = ((List.range n).countP (inTotal allIssues true true) : Nat)
  pr_open : s.typePullRequest.open = ((List.range n).countP (inTotal allIssues true false) : Nat)
  issue_closed : s.typeIssue.closed = ((List.range n).countP (inTotal allIssues false true) : Nat)
  issue_open : s.typeIssue.open = ((List.range n).countP (inTotal allIssues false false) : Nat)

/-- An open issue created on 2024-03-05T10:00:00Z. -/
def dayExampleOpen : Issue := ⟨some "open", some ⟨1709632800, 0, 0⟩, none, none⟩

/-- A pull request created on 1970-01-01T00:00:00Z and closed on
2024-03-07T18:00:00Z. -/
def dayExampleClosed : Issue :=
  ⟨some "closed", some ⟨0, 0, 0⟩, some ⟨1709834400, 0, 0⟩, some ⟨none, none, none, none⟩⟩

/-- The snapshot of the example of C1. -/
def dayExample : List Issue := [dayExampleOpen, dayExampleClosed]

/-- The record that `newStat` builds for the bucket of a day of the map. -/
def statOf (allIssues : List Issue) (m : DayMap) (day : String) : stat :=
  ⟨day, m.get day, ((m.get day).countP (fun p => !ptrClosed allIssues p) : Nat),
    ((m.get day).countP (ptrClosed allIssues) : Nat)⟩

/-- The item behind a pointer exists and is well formed. -/
def ptrWellFormed (allIssues : List Issue) (p : IssuePtr) : Prop :=
  match deref allIssues p with
  | some issue => issue.WellFormed
  | none => False

instance (allIssues : List Issue) (p : IssuePtr) : Decidable (ptrWellFormed allIssues p) := by
  unfold ptrWellFormed
  cases deref allIssues p <;> infer_instance

/-- The map of the example of C3: one bucket for each of the days 2024-01-10,
2024-01-02 and 2023-12-31, over the snapshot `dayExample`. -/
def sortExample : DayMap :=
  ((((∅ : DayMap).appendAt "2024-01-10" 0).appendAt "2024-01-02" 1).appendAt "2023-12-31" 0)

/-- The remote side answers the call number `calls`, asking for page `page`,
with the first page of the list and its cursor, the next call, asking for that
cursor, with the second page, and so on; the cursor of every page but the last
is non-zero and the cursor of the last page is zero. -/
def ServesPages (server : Server) : Nat → Int → List (List Issue × Int) → Prop
  | _, _, [] => True
  | calls, page, (issues, next) :: rest =>
    server calls page = Reply.ok issues ⟨next⟩ ∧ (next = 0 ↔ rest = []) ∧
      ServesPages server (calls + 1) next rest

/-- The pages that a fetch of the given pages asks for: page 0, then the cursor
of every page but the last. -/
def requestedPages (pages : List (List Issue × Int)) : List Int :=
  0 :: pages.dropLast.map (fun pg => pg.2)

/-- A remote side with three pages of two, zero and one issue, reached through
the cursors 2 and 3. -/
def pagesExample : List (List Issue × Int) :=
  [([dayExampleOpen, dayExampleClosed], 2), ([], 3), ([dayExampleOpen], 0)]

/-- The remote side that serves `pagesExample`. -/
def serverExample : Server := fun calls page =>
  if calls = 0 ∧ page = 0 then Reply.ok [dayExampleOpen, dayExampleClosed] ⟨2⟩
  else if calls = 1 ∧ page = 2 then Reply.ok [] ⟨3⟩
  else if calls = 2 ∧ page = 3 then Reply.ok [dayExampleOpen] ⟨0⟩
  else Reply.failed "unexpected request" none

/-- A remote side that cannot be reached: every call fails without a
response. -/
def unreachableServer : Server := fun _ _ => Reply.failed "dial tcp: connection refused" none

/-- A closed issue created on day 0 and closed on day 3. -/
def threeDaysExample : Issue := ⟨some "closed", some ⟨0, 0, 0⟩, some ⟨259200, 0, 0⟩, none⟩

/-- A closed issue created on day 0 and closed three days and a half later. -/
def halfDayExample : Issue := ⟨some "closed", some ⟨0, 0, 0⟩, some ⟨302400, 0, 0⟩, none⟩

/-! # Theorems -/

/-! ## `newStat` -/

theorem ptrHasState_iff (allIssues : List Issue) (p : IssuePtr) :
    ptrHasState allIssues p ↔
      ∃ issue state, deref allIssues p = some issue ∧ issue.State = some state := by
  unfold ptrHasState
  cases hd : deref allIssues p with
  | none => simp
  | some issue => simp [Option.isSome_iff_exists]

theorem newStatStep_eq (allIssues : List Issue) (nStat : stat) (p : IssuePtr)
    (h : ptrHasState allIssues p) :
    newStatStep allIssues nStat p = some
      (if ptrClosed allIssues p then { nStat with closed := nStat.closed + 1 }
       else { nStat with «open» := nStat.open + 1 }) := by
  obtain ⟨issue, state, hd, hstate⟩ := (ptrHasState_iff allIssues p).mp h
  simp only [newStatStep, ptrClosed, hd, hstate, Issue.isClosed, CLOSED, Option.bind_eq_bind,
    Option.some_bind]
  by_cases hc : state = "closed"
  · simp [hc]
  · simp [hc]

theorem newStat_fold (allIssues : List Issue) (issues : List IssuePtr)
    (h : ∀ p ∈ issues, ptrHasState allIssues p) (nStat : stat) :
    issues.foldlM (newStatStep allIssues) nStat = some
      { nStat with
        «open» := nStat.open + (issues.countP (fun p => !ptrClosed allIssues p) : Nat)
        closed := nStat.closed + (issues.countP (ptrClosed allIssues) : Nat) } := by
  induction issues generalizing nStat with
  | nil => simp
  | cons p rest ih =>
    have hp := h p (List.mem_cons_self _ _)
    have hrest : ∀ q ∈ rest, ptrHasState allIssues q := fun q hq => h q (List.mem_cons_of_mem _ hq)
    rw [List.foldlM_cons, newStatStep_eq allIssues nStat p hp]
    simp only [Option.bind_eq_bind, Option.some_bind]
    rw [ih hrest]
    by_cases hc : ptrClosed allIssues p
    · simp [hc, List.countP_cons]; omega
    · simp [hc, List.countP_cons]; omega

/-- C2: for every day and every list of items with a state, `newStat` returns a
record with that day and list whose closed count is the number of items in
state `"closed"`, whose open count is the number of the others, whose `net` is
open minus closed, and whose two counts add up to the number of items. -/
theorem newStat_counts (allIssues : List Issue) (day : String) (issues : List IssuePtr)
    (h : ∀ p ∈ issues, ptrHasState allIssues p) :
    ∃ s, newStat allIssues day issues = some s ∧ s.day = day ∧ s.issues = issues ∧
      s.closed = (issues.countP (ptrClosed allIssues) : Nat) ∧
      s.open = (issues.countP (fun p => !ptrClosed allIssues p) : Nat) ∧
      s.net = s.open - s.closed ∧
      s.open + s.closed = (issues.length : Nat) := by
  refine ⟨_, newStat_fold allIssues issues h ⟨day, issues, 0, 0⟩, rfl, rfl, ?_, ?_, rfl, ?_⟩
  · simp
  · simp
  · have := List.length_eq_countP_add_countP (ptrClosed allIssues) issues
    simp only [zero_add]
    have h2 : List.countP (fun p => !ptrClosed allIssues p) issues
        = List.countP (fun a => decide ¬ptrClosed allIssues a = true) issues := by
      congr 1; funext a; simp
    rw [h2]; push_cast [this]; omega

theorem newStat_counts_witness :
    (∀ p ∈ List.range 8, ptrHasState netExample p) ∧
    ∃ s, newStat netExample "2024-03-05" (List.range 8) = some s ∧
      s.open = 3 ∧ s.closed = 5 ∧ s.net = -2 := by
  refine ⟨by decide, ?_⟩
  obtain ⟨s, h1, _, _, hc, ho, hn, _⟩ :=
    newStat_counts netExample "2024-03-05" (List.range 8) (by decide)
  have ho3 : s.open = 3 := by rw [ho]; decide
  have hc5 : s.closed = 5 := by rw [hc]; decide
  exact ⟨s, h1, ho3, hc5, by rw [hn, ho3, hc5]; decide⟩

/-! ## Maps -/

theorem DayMap.get_empty (d : String) : DayMap.get ∅ d = [] := by
  simp [DayMap.get]

theorem DayMap.get_appendAt (m : DayMap) (d d' : String) (i : IssuePtr) :
    DayMap.get (m.appendAt d i) d' = if d' = d then m.get d ++ [i] else m.get d' := by
  unfold DayMap.appendAt
  by_cases h : d' = d
  · subst h; simp [DayMap.get]
  · simp [DayMap.get, AList.lookup_insert_ne h, h]

theorem DayMap.mem_appendAt (m : DayMap) (d d' : String) (i : IssuePtr) :
    d' ∈ m.appendAt d i ↔ d' = d ∨ d' ∈ m := by
  simp [DayMap.appendAt]

theorem flatten_kerase_perm (d : String) (l : List (Sigma (fun _ : String => List IssuePtr))) :
    (l.map (fun e => e.2)).flatten.Perm
      ((l.dlookup d).getD [] ++ ((l.kerase d).map (fun e => e.2)).flatten) := by
  induction l with
  | nil => simp
  | cons e l ih =>
    obtain ⟨k, v⟩ := e
    by_cases h : d = k
    · subst h; simp
    · have h' : k ≠ d := fun hk => h hk.symm
      rw [List.dlookup_cons_ne _ _ h, List.kerase_cons_ne h]
      simp only [List.map_cons, List.flatten_cons]
      refine (List.Perm.append_left v ih).trans ?_
      rw [← List.append_assoc, ← List.append_assoc]
      exact List.Perm.append_right _ List.perm_append_comm

theorem DayMap.items_appendAt (m : DayMap) (d : String) (i : IssuePtr) :
    (m.appendAt d i).items.Perm (i :: m.items) := by
  have h := flatten_kerase_perm d m.entries
  unfold DayMap.items DayMap.appendAt
  rw [AList.insert_entries]
  simp only [List.map_cons, List.flatten_cons]
  have h2 : (DayMap.get m d ++ [i] ++ ((m.entries.kerase d).map (fun e => e.2)).flatten).Perm
      (i :: (DayMap.get m d ++ ((m.entries.kerase d).map (fun e => e.2)).flatten)) := by
    rw [List.append_assoc]
    refine (List.Perm.append_left _ List.perm_append_comm).trans ?_
    rw [← List.append_assoc]
    exact List.perm_append_comm.trans (by simp)
  refine h2.trans (List.Perm.cons _ ?_)
  exact h.symm

/-! ## The classification loop -/

theorem bucketDay_of_wellFormed (issue : Issue) (hw : issue.WellFormed) :
    ∃ d, bucketDay issue = some d := by
  obtain ⟨_, hc, hcl⟩ := hw
  unfold bucketDay
  by_cases h : issue.State = some CLOSED
  · obtain ⟨t, ht⟩ := Option.isSome_iff_exists.mp (hcl h)
    exact ⟨t.Format, by simp [h, ht]⟩
  · obtain ⟨t, ht⟩ := Option.isSome_iff_exists.mp hc
    exact ⟨t.Format, by simp [h, ht]⟩

theorem classifyStep_eq (allIssues : List Issue) (s : Buckets) (n : Nat) (issue : Issue)
    (d : String) (hd : deref allIssues n = some issue) (hw : issue.WellFormed)
    (hday : bucketDay issue = some d) :
    classifyStep allIssues s n = some
      (if issue.isPullRequest then
        { s with
          typePullRequest :=
            if issue.isClosed then { s.typePullRequest with closed := s.typePullRequest.closed + 1 }
            else { s.typePullRequest with «open» := s.typePullRequest.open + 1 }
          prPerDay := s.prPerDay.appendAt d n }
      else
        { s with
          typeIssue :=
            if issue.isClosed then { s.typeIssue with closed := s.typeIssue.closed + 1 }
            else { s.typeIssue with «open» := s.typeIssue.open + 1 }
          issuePerDay := s.issuePerDay.appendAt d n }) := by
  obtain ⟨hs, hc, hcl⟩ := hw
  obtain ⟨state, hstate⟩ := Option.isSome_iff_exists.mp hs
  obtain ⟨created, hcreated⟩ := Option.isSome_iff_exists.mp hc
  unfold bucketDay at hday
  by_cases hclosed : state = CLOSED
  · subst hclosed
    obtain ⟨closedAt, hclosedAt⟩ := Option.isSome_iff_exists.mp (hcl hstate)
    simp only [hstate, hclosedAt, if_true, Option.map_some', Option.some.injEq] at hday
    subst hday
    by_cases hpr : issue.PullRequestLinks.isSome
    · simp [classifyStep, hd, hstate, hclosedAt, hpr, Issue.isPullRequest, Issue.isClosed]
    · simp [classifyStep, hd, hstate, hclosedAt, hpr, Issue.isPullRequest, Issue.isClosed]
  · have hne : ¬ issue.State = some CLOSED := by rw [hstate]; simpa using hclosed
    simp only [hne, if_false, hcreated, Option.map_some', Option.some.injEq] at hday
    subst hday
    by_cases hpr : issue.PullRequestLinks.isSome
    · simp [classifyStep, hd, hstate, hcreated, hpr, Issue.isPullRequest, Issue.isClosed, hclosed]
    · simp [classifyStep, hd, hstate, hcreated, hpr, Issue.isPullRequest, Issue.isClosed, hclosed]

theorem ClassifyInv.init (allIssues : List Issue) : ClassifyInv allIssues 0 Buckets.init where
  pr_get := fun d => by simp [Buckets.init, DayMap.get_empty]
  issue_get := fun d => by simp [Buckets.init, DayMap.get_empty]
  pr_mem := fun d h => by simp [Buckets.init] at h
  issue_mem := fun d h => by simp [Buckets.init] at h
  pr_items := by simp [Buckets.init, DayMap.items]
  issue_items := by simp [Buckets.init, DayMap.items]
  pr_closed := by simp [Buckets.init]
  pr_open := by simp [Buckets.init]
  issue_closed := by simp [Buckets.init]
  issue_open := by simp [Buckets.init]

theorem filter_range_succ (p : Nat → Bool) (n : Nat) :
    (List.range (n + 1)).filter p = (List.range n).filter p ++ if p n then [n] else [] := by
  rw [List.range_succ, List.filter_append]
  by_cases h : p n <;> simp [h]

theorem countP_range_succ (p : Nat → Bool) (n : Nat) :
    (List.range (n + 1)).countP p = (List.range n).countP p + if p n then 1 else 0 := by
  rw [List.range_succ, List.countP_append]
  by_cases h : p n <;> simp [h]

theorem ClassifyInv.step {allIssues : List Issue} {n : Nat} {s : Buckets}
    (hinv : ClassifyInv allIssues n s) (issue : Issue) (hd : deref allIssues n = some issue)
    (hw : issue.WellFormed) :
    ∃ s', classifyStep allIssues s n = some s' ∧ ClassifyInv allIssues (n + 1) s' := by
  obtain ⟨d, hday⟩ := bucketDay_of_wellFormed issue hw
  refine ⟨_, classifyStep_eq allIssues s n issue d hd hw hday, ?_⟩
  have hB : ∀ pr d', inBucket allIssues pr d' n = (issue.isPullRequest == pr && decide (d' = d)) := by
    intro pr d'
    simp only [inBucket, hd, hday]
    by_cases h : d' = d
    · subst h; simp
    · have h' : ¬ d = d' := fun e => h e.symm
      simp [h, h']
  have hC : ∀ pr, inCategory allIssues pr n = (issue.isPullRequest == pr) := by
    intro pr; simp [inCategory, hd]
  have hT : ∀ pr c, inTotal allIssues pr c n = (issue.isPullRequest == pr && issue.isClosed == c) := by
    intro pr c; simp [inTotal, hd]
  by_cases hpr : issue.isPullRequest = true
  · simp only [hpr, if_true]
    refine ⟨?_, ?_, ?_, ?_, ?_, ?_, ?_, ?_, ?_, ?_⟩
    · intro d'
      rw [filter_range_succ, hB, DayMap.get_appendAt, ← hinv.pr_get]
      by_cases h : d' = d
      · subst h; simp [hpr]
      · simp [h]
    · intro d'
      rw [filter_range_succ, hB, ← hinv.issue_get]
      simp [hpr]
    · intro d' _
      rw [DayMap.get_appendAt]
      by_cases h : d' = d
      · simp [h]
      · simp only [h, if_false]
        apply hinv.pr_mem
        rename_i hm
        rcases (DayMap.mem_appendAt _ _ _ _).mp hm with h1 | h1
        · exact absurd h1 h
        · exact h1
    · exact hinv.issue_mem
    · rw [filter_range_succ, hC]
      simp only [hpr, beq_self_eq_true, if_true]
      refine (DayMap.items_appendAt _ _ _).trans ?_
      exact (List.Perm.cons _ hinv.pr_items).trans (@List.perm_append_comm _ [n] _)
    · rw [filter_range_succ, hC]
      simpa [hpr] using hinv.issue_items
    · rw [countP_range_succ, hT]
      by_cases hc : issue.isClosed = true
      · simp [hpr, hc, hinv.pr_closed]
      · simp [hpr, hc, hinv.pr_closed]
    · rw [countP_range_succ, hT]
      by_cases hc : issue.isClosed = true
      · simp [hpr, hc, hinv.pr_open]
      · simp [hpr, hc, hinv.pr_open]
    · rw [countP_range_succ, hT]
      simp [hpr, hinv.issue_closed]
    · rw [countP_range_succ, hT]
      simp [hpr, hinv.issue_open]
  · have hpr' : issue.isPullRequest = false := by simpa using hpr
    simp only [hpr', Bool.false_eq_true, if_false]
    refine ⟨?_, ?_, ?_, ?_, ?_, ?_, ?_, ?_, ?_, ?_⟩
    · intro d'
      rw [filter_range_succ, hB, ← hinv.pr_get]
      simp [hpr']
    · intro d'
      rw [filter_range_succ, hB, DayMap.get_appendAt, ← hinv.issue_get]
      by_cases h : d' = d
      · subst h; simp [hpr']
      · simp [h]
    · exact hinv.pr_mem
    · intro d' hm
      rw [DayMap.get_appendAt]
      by_cases h : d' = d
      · simp [h]
      · simp only [h, if_false]
        apply hinv.issue_mem
        rcases (DayMap.mem_appendAt _ _ _ _).mp hm with h1 | h1
        · exact absurd h1 h
        · exact h1
    · rw [filter_range_succ, hC]
      simpa [hpr'] using hinv.pr_items
    · rw [filter_range_succ, hC]
      simp only [hpr', beq_self_eq_true, if_true]
      refine (DayMap.items_appendAt _ _ _).trans ?_
      exact (List.Perm.cons _ hinv.issue_items).trans (@List.perm_append_comm _ [n] _)
    · rw [countP_range_succ, hT]
      simp [hpr', hinv.pr_closed]
    · rw [countP_range_succ, hT]
      simp [hpr', hinv.pr_open]
    · rw [countP_range_succ, hT]
      by_cases hc : issue.isClosed = true
      · simp [hpr', hc, hinv.issue_closed]
      · simp [hpr', hc, hinv.issue_closed]
    · rw [countP_range_succ, hT]
      by_cases hc : issue.isClosed = true
      · simp [hpr', hc, hinv.issue_open]
      · simp [hpr', hc, hinv.issue_open]

theorem classify_prefix (allIssues : List Issue) (hw : ∀ issue ∈ allIssues, issue.WellFormed)
    (n : Nat) (hn : n ≤ allIssues.length) :
    ∃ s, (List.range n).foldlM (classifyStep allIssues) Buckets.init = some s ∧
      ClassifyInv allIssues n s := by
  induction n with
  | zero => exact ⟨Buckets.init, by simp, ClassifyInv.init allIssues⟩
  | succ n ih =>
    obtain ⟨s, hs, hinv⟩ := ih (Nat.le_of_succ_le hn)
    have hlt : n < allIssues.length := hn
    have hd : deref allIssues n = some allIssues[n] := by simp [deref, hlt]
    obtain ⟨s', hs', hinv'⟩ := hinv.step allIssues[n] hd (hw _ (List.getElem_mem _))
    refine ⟨s', ?_, hinv'⟩
    rw [List.range_succ, List.foldlM_append, hs]
    simpa using hs'

theorem classify_inv (allIssues : List Issue) (hw : ∀ issue ∈ allIssues, issue.WellFormed) :
    ∃ s, classify allIssues = some s ∧ ClassifyInv allIssues allIssues.length s :=
  classify_prefix allIssues hw allIssues.length (Nat.le_refl _)

theorem deref_lt {allIssues : List Issue} {p : IssuePtr} {issue : Issue}
    (h : deref allIssues p = some issue) : p < allIssues.length := by
  unfold deref at h
  by_contra hlt
  rw [List.getElem?_eq_none (Nat.le_of_not_lt hlt)] at h
  exact Option.noConfusion h

/-- C1: on a snapshot of well-formed items the classification loop of `main`
files every item under its bucket day (the day of `closedAt` when its state is
`"closed"`, the day of `createdAt` otherwise) in the map of its category, and
every pointer stored under a key `d` is that of an item whose bucket day is
`d`. -/
theorem classify_bucketDay (allIssues : List Issue)
    (hw : ∀ issue ∈ allIssues, issue.WellFormed) :
    ∃ s, classify allIssues = some s ∧
      (∀ index issue, deref allIssues index = some issue →
        ∃ d, bucketDay issue = some d ∧
          index ∈ (if issue.isPullRequest then s.prPerDay else s.issuePerDay).get d) ∧
      (∀ d p, p ∈ s.prPerDay.get d ∨ p ∈ s.issuePerDay.get d →
        ∃ issue, deref allIssues p = some issue ∧ bucketDay issue = some d) := by
  obtain ⟨s, hs, hinv⟩ := classify_inv allIssues hw
  refine ⟨s, hs, ?_, ?_⟩
  · intro index issue hd
    have hmem : issue ∈ allIssues := by
      unfold deref at hd; exact List.getElem?_mem hd
    obtain ⟨d, hday⟩ := bucketDay_of_wellFormed issue (hw issue hmem)
    refine ⟨d, hday, ?_⟩
    have hlt := deref_lt hd
    by_cases hpr : issue.isPullRequest = true
    · simp only [hpr, if_true, hinv.pr_get, List.mem_filter, List.mem_range]
      exact ⟨hlt, by simp [inBucket, hd, hpr, hday]⟩
    · have hpr' : issue.isPullRequest = false := by simpa using hpr
      simp only [hpr', Bool.false_eq_true, if_false, hinv.issue_get, List.mem_filter,
        List.mem_range]
      exact ⟨hlt, by simp [inBucket, hd, hpr', hday]⟩
  · intro d p hp
    have key : ∀ pr, inBucket allIssues pr d p = true →
        ∃ issue, deref allIssues p = some issue ∧ bucketDay issue = some d := by
      intro pr h
      unfold inBucket at h
      cases hd : deref allIssues p with
      | none => simp [hd] at h
      | some issue =>
        simp only [hd, Bool.and_eq_true, beq_iff_eq] at h
        exact ⟨issue, rfl, h.2⟩
    rcases hp with hp | hp
    · rw [hinv.pr_get, List.mem_filter] at hp
      exact key true hp.2
    · rw [hinv.issue_get, List.mem_filter] at hp
      exact key false hp.2

theorem classify_bucketDay_witness :
    (∀ issue ∈ dayExample, issue.WellFormed) ∧
    ∃ s, classify dayExample = some s ∧
      0 ∈ s.issuePerDay.get "2024-03-05" ∧ 1 ∈ s.prPerDay.get "2024-03-07" := by
  refine ⟨by decide, ?_⟩
  obtain ⟨s, hs, h, _⟩ := classify_bucketDay dayExample (by decide)
  refine ⟨s, hs, ?_, ?_⟩
  · obtain ⟨d, hd, hmem⟩ := h 0 dayExampleOpen rfl
    have e : bucketDay dayExampleOpen = some "2024-03-05" := by decide!
    have hdd : "2024-03-05" = d := Option.some.inj (e.symm.trans hd)
    subst hdd
    exact hmem
  · obtain ⟨d, hd, hmem⟩ := h 1 dayExampleClosed rfl
    have e : bucketDay dayExampleClosed = some "2024-03-07" := by decide!
    have hdd : "2024-03-07" = d := Option.some.inj (e.symm.trans hd)
    subst hdd
    exact hmem

theorem length_items (m : DayMap) :
    m.items.length = (m.entries.map (fun e => e.2.length)).sum := by
  simp [DayMap.items, List.length_flatten, Function.comp_def]

theorem count_filter_range (p : Nat → Bool) (n i : Nat) :
    ((List.range n).filter p).count i = if i < n ∧ p i = true then 1 else 0 := by
  have hnd : ((List.range n).filter p).Nodup := (List.nodup_range n).filter _
  by_cases h : i < n ∧ p i = true
  · rw [if_pos h]
    exact List.count_eq_one_of_mem hnd (List.mem_filter.mpr ⟨List.mem_range.mpr h.1, h.2⟩)
  · rw [if_neg h]
    apply List.count_eq_zero_of_not_mem
    intro hm
    rw [List.mem_filter, List.mem_range] at hm
    exact h hm

theorem length_filter_category (allIssues : List Issue) (n : Nat) :
    ((List.range n).filter (inCategory allIssues true)).length +
      ((List.range n).filter (inCategory allIssues false)).length
      = (List.range n).countP (fun i => (deref allIssues i).isSome) := by
  induction n with
  | zero => simp
  | succ n ih =>
    rw [filter_range_succ, filter_range_succ, countP_range_succ, List.length_append,
      List.length_append, ← ih]
    cases hd : deref allIssues n with
    | none => simp [inCategory, hd]
    | some issue =>
      cases hpr : issue.isPullRequest <;> simp [inCategory, hd, hpr] <;> omega

theorem countP_deref_isSome (allIssues : List Issue) :
    (List.range allIssues.length).countP (fun i => (deref allIssues i).isSome)
      = allIssues.length := by
  have h : ∀ i ∈ List.range allIssues.length, (fun i => (deref allIssues i).isSome) i = true := by
    intro i hi
    have hlt : i < allIssues.length := List.mem_range.mp hi
    simp [deref, hlt]
  rw [List.countP_eq_length.mpr h, List.length_range]

/-- C7: on a snapshot of `N` well-formed items, after the classification loop
every item with pull-request linkage occurs exactly once among the buckets of
the pull-request map, in the bucket of exactly one day, and in no bucket of the
issue map, and every item without linkage the other way round; the bucket sizes
of the two maps sum to `N`, and no bucket is empty. -/
theorem classify_membership (allIssues : List Issue)
    (hw : ∀ issue ∈ allIssues, issue.WellFormed) :
    ∃ s, classify allIssues = some s ∧
      (∀ index issue, deref allIssues index = some issue →
        (issue.isPullRequest = true →
          s.prPerDay.items.count index = 1 ∧ s.issuePerDay.items.count index = 0 ∧
          (∃! d, index ∈ s.prPerDay.get d) ∧ ∀ d, index ∉ s.issuePerDay.get d) ∧
        (issue.isPullRequest = false →
          s.issuePerDay.items.count index = 1 ∧ s.prPerDay.items.count index = 0 ∧
          (∃! d, index ∈ s.issuePerDay.get d) ∧ ∀ d, index ∉ s.prPerDay.get d)) ∧
      (s.prPerDay.entries.map (fun e => e.2.length)).sum +
        (s.issuePerDay.entries.map (fun e => e.2.length)).sum = allIssues.length ∧
      (∀ d ∈ s.prPerDay, s.prPerDay.get d ≠ []) ∧
      (∀ d ∈ s.issuePerDay, s.issuePerDay.get d ≠ []) := by
  obtain ⟨s, hs, hinv⟩ := classify_inv allIssues hw
  refine ⟨s, hs, ?_, ?_, hinv.pr_mem, hinv.issue_mem⟩
  · intro index issue hd
    have hlt := deref_lt hd
    have hmem : issue ∈ allIssues := by unfold deref at hd; exact List.getElem?_mem hd
    obtain ⟨d, hday⟩ := bucketDay_of_wellFormed issue (hw issue hmem)
    have hcount : ∀ pr, ((List.range allIssues.length).filter (inCategory allIssues pr)).count index
        = if issue.isPullRequest = pr then 1 else 0 := by
      intro pr
      rw [count_filter_range]
      by_cases h : issue.isPullRequest = pr <;> simp [inCategory, hd, hlt, h]
    have hin : ∀ pr d', index ∈ (List.range allIssues.length).filter (inBucket allIssues pr d')
        ↔ issue.isPullRequest = pr ∧ d = d' := by
      intro pr d'
      simp [List.mem_filter, inBucket, hd, hlt, hday]
    constructor
    · intro hpr
      refine ⟨?_, ?_, ⟨d, ?_, ?_⟩, ?_⟩
      · rw [hinv.pr_items.count_eq, hcount]; simp [hpr]
      · rw [hinv.issue_items.count_eq, hcount]; simp [hpr]
      · simp only [hinv.pr_get]; exact (hin true d).mpr ⟨hpr, rfl⟩
      · intro d' hd'
        simp only [hinv.pr_get] at hd'
        exact ((hin true d').mp hd').2.symm
      · intro d' hd'
        rw [hinv.issue_get] at hd'
        have := ((hin false d').mp hd').1
        rw [hpr] at this
        exact Bool.noConfusion this
    · intro hpr
      refine ⟨?_, ?_, ⟨d, ?_, ?_⟩, ?_⟩
      · rw [hinv.issue_items.count_eq, hcount]; simp [hpr]
      · rw [hinv.pr_items.count_eq, hcount]; simp [hpr]
      · simp only [hinv.issue_get]; exact (hin false d).mpr ⟨hpr, rfl⟩
      · intro d' hd'
        simp only [hinv.issue_get] at hd'
        exact ((hin false d').mp hd').2.symm
      · intro d' hd'
        rw [hinv.pr_get] at hd'
        have := ((hin true d').mp hd').1
        rw [hpr] at this
        exact Bool.noConfusion this
  · rw [← length_items, ← length_items, hinv.pr_items.length_eq, hinv.issue_items.length_eq,
      length_filter_category, countP_deref_isSome]

theorem classify_membership_witness :
    (∀ issue ∈ dayExample, issue.WellFormed) ∧
    ∃ s, classify dayExample = some s ∧
      s.prPerDay.items.count 1 = 1 ∧ s.issuePerDay.items.count 1 = 0 ∧
      s.issuePerDay.items.count 0 = 1 ∧ s.prPerDay.items.count 0 = 0 ∧
      (s.prPerDay.entries.map (fun e => e.2.length)).sum +
        (s.issuePerDay.entries.map (fun e => e.2.length)).sum = 2 := by
  refine ⟨by decide, ?_⟩
  obtain ⟨s, hs, h, hsum, _, _⟩ := classify_membership dayExample (by decide)
  have h1 := (h 1 dayExampleClosed rfl).1 rfl
  have h0 := (h 0 dayExampleOpen rfl).2 rfl
  exact ⟨s, hs, h1.1, h1.2.1, h0.1, h0.2.1, hsum⟩

theorem countP_range_deref (q : Issue → Bool) (allIssues : List Issue) :
    (List.range allIssues.length).countP
        (fun i => match deref allIssues i with
          | some issue => q issue
          | none => false)
      = allIssues.countP q := by
  induction allIssues using List.reverseRecOn with
  | nil => simp
  | append_singleton l a ih =>
    rw [List.length_append, List.length_singleton, countP_range_succ, List.countP_append, ← ih]
    have h1 : (List.range l.length).countP
          (fun i => match deref (l ++ [a]) i with
            | some issue => q issue
            | none => false)
        = (List.range l.length).countP
          (fun i => match deref l i with
            | some issue => q issue
            | none => false) := by
      apply List.countP_congr
      intro i hi
      have hlt : i < l.length := List.mem_range.mp hi
      simp [deref, List.getElem?_append_left hlt]
    rw [h1]
    by_cases hq : q a = true <;> simp [deref, hq]

/-- C8: on a snapshot of well-formed items, after the classification loop the
pull-request totals hold the number of closed and of not closed items with
pull-request linkage, the issue totals hold the two numbers for the items
without linkage, and the four counters sum to the number of items. -/
theorem classify_totals (allIssues : List Issue)
    (hw : ∀ issue ∈ allIssues, issue.WellFormed) :
    ∃ s, classify allIssues = some s ∧
      s.typePullRequest.closed
        = (allIssues.countP (fun issue => issue.isPullRequest && issue.isClosed) : Nat) ∧
      s.typePullRequest.open
        = (allIssues.countP (fun issue => issue.isPullRequest && !issue.isClosed) : Nat) ∧
      s.typeIssue.closed
        = (allIssues.countP (fun issue => !issue.isPullRequest && issue.isClosed) : Nat) ∧
      s.typeIssue.open
        = (allIssues.countP (fun issue => !issue.isPullRequest && !issue.isClosed) : Nat) ∧
      s.typePullRequest.closed + s.typePullRequest.open + s.typeIssue.closed + s.typeIssue.open
        = (allIssues.length : Nat) := by
  obtain ⟨s, hs, hinv⟩ := classify_inv allIssues hw
  have key : ∀ pr c, (List.range allIssues.length).countP (inTotal allIssues pr c)
      = allIssues.countP (fun issue => issue.isPullRequest == pr && issue.isClosed == c) := by
    intro pr c
    rw [← countP_range_deref]
    rfl
  have e1 : s.typePullRequest.closed
      = (allIssues.countP (fun issue => issue.isPullRequest && issue.isClosed) : Nat) := by
    rw [hinv.pr_closed, key]; congr 2; funext issue; simp
  have e2 : s.typePullRequest.open
      = (allIssues.countP (fun issue => issue.isPullRequest && !issue.isClosed) : Nat) := by
    rw [hinv.pr_open, key]; congr 2; funext issue; simp
  have e3 : s.typeIssue.closed
      = (allIssues.countP (fun issue => !issue.isPullRequest && issue.isClosed) : Nat) := by
    rw [hinv.issue_closed, key]; congr 2; funext issue; simp
  have e4 : s.typeIssue.open
      = (allIssues.countP (fun issue => !issue.isPullRequest && !issue.isClosed) : Nat) := by
    rw [hinv.issue_open, key]; congr 2; funext issue; simp
  refine ⟨s, hs, e1, e2, e3, e4, ?_⟩
  rw [e1, e2, e3, e4]
  have hsum : ∀ l : List Issue,
      l.countP (fun issue => issue.isPullRequest && issue.isClosed) +
      l.countP (fun issue => issue.isPullRequest && !issue.isClosed) +
      l.countP (fun issue => !issue.isPullRequest && issue.isClosed) +
      l.countP (fun issue => !issue.isPullRequest && !issue.isClosed) = l.length := by
    intro l
    induction l with
    | nil => simp
    | cons a l ih =>
      simp only [List.countP_cons, List.length_cons]
      cases a.isPullRequest <;> cases a.isClosed <;> simp <;> omega
  exact_mod_cast hsum allIssues

theorem classify_totals_witness :
    (∀ issue ∈ dayExample, issue.WellFormed) ∧
    ∃ s, classify dayExample = some s ∧
      s.typePullRequest = ⟨0, 1⟩ ∧ s.typeIssue = ⟨1, 0⟩ := by
  refine ⟨by decide, ?_⟩
  obtain ⟨s, hs, e1, e2, e3, e4, _⟩ := classify_totals dayExample (by decide)
  refine ⟨s, hs, ?_, ?_⟩
  · have h1 : s.typePullRequest.closed = 1 := by rw [e1]; decide
    have h2 : s.typePullRequest.open = 0 := by rw [e2]; decide
    cases hT : s.typePullRequest with
    | mk o c => rw [hT] at h1 h2; simp only at h1 h2; rw [h1, h2]
  · have h1 : s.typeIssue.closed = 0 := by rw [e3]; decide
    have h2 : s.typeIssue.open = 1 := by rw [e4]; decide
    cases hT : s.typeIssue with
    | mk o c => rw [hT] at h1 h2; simp only at h1 h2; rw [h1, h2]

theorem itemAge_isSome (now : Time) (issue : Issue) (hw : issue.WellFormed) :
    (itemAge now issue).isSome = true := by
  obtain ⟨hs, hc, hcl⟩ := hw
  obtain ⟨state, hstate⟩ := Option.isSome_iff_exists.mp hs
  obtain ⟨created, hcreated⟩ := Option.isSome_iff_exists.mp hc
  by_cases hclosed : state = CLOSED
  · subst hclosed
    obtain ⟨closedAt, hclosedAt⟩ := Option.isSome_iff_exists.mp (hcl hstate)
    simp [itemAge, hstate, hcreated, hclosedAt]
  · simp [itemAge, hstate, hcreated, hclosed]

/-- C9: for an item whose state and `createdAt` are present and whose
`closedAt` is present whenever its state is `"closed"`, the iteration of the
classification loop on that item and the computation of its age in `display`
return a value: neither reads an absent field. -/
theorem wellFormed_no_fault (allIssues : List Issue) (index : Nat) (issue : Issue)
    (hd : deref allIssues index = some issue) (hw : issue.WellFormed) (s : Buckets)
    (now : Time) :
    (classifyStep allIssues s index).isSome = true ∧ (itemAge now issue).isSome = true := by
  obtain ⟨d, hday⟩ := bucketDay_of_wellFormed issue hw
  refine ⟨?_, itemAge_isSome now issue hw⟩
  rw [classifyStep_eq allIssues s index issue d hd hw hday]
  rfl

theorem wellFormed_no_fault_witness :
    deref dayExample 1 = some dayExampleClosed ∧ dayExampleClosed.WellFormed ∧
    (classifyStep dayExample Buckets.init 1).isSome = true ∧
    (itemAge ⟨1709834400, 0, 0⟩ dayExampleClosed).isSome = true :=
  ⟨rfl, by decide,
    wellFormed_no_fault dayExample 1 dayExampleClosed rfl (by decide) Buckets.init
      ⟨1709834400, 0, 0⟩⟩

/-! ## `display` -/

theorem mapM_eq_some_map {α β : Type} (f : α → Option β) (g : α → β) (l : List α)
    (h : ∀ x ∈ l, f x = some (g x)) : l.mapM f = some (l.map g) := by
  induction l with
  | nil => rfl
  | cons a l ih =>
    rw [List.mapM_cons, h a (List.mem_cons_self _ _),
      ih (fun x hx => h x (List.mem_cons_of_mem _ hx))]
    rfl

theorem mapM_isSome {α β : Type} (f : α → Option β) (l : List α)
    (h : ∀ x ∈ l, (f x).isSome = true) : (l.mapM f).isSome = true := by
  induction l with
  | nil => rfl
  | cons a l ih =>
    obtain ⟨b, hb⟩ := Option.isSome_iff_exists.mp (h a (List.mem_cons_self _ _))
    obtain ⟨bs, hbs⟩ := Option.isSome_iff_exists.mp
      (ih (fun x hx => h x (List.mem_cons_of_mem _ hx)))
    rw [List.mapM_cons, hb, hbs]
    rfl

theorem ptrHasState_of_wellFormed {allIssues : List Issue} {p : IssuePtr}
    (h : ptrWellFormed allIssues p) : ptrHasState allIssues p := by
  unfold ptrWellFormed at h
  unfold ptrHasState
  cases hd : deref allIssues p with
  | none => rw [hd] at h; exact h.elim
  | some issue => rw [hd] at h; simpa using h.1

theorem newStat_eq_statOf (allIssues : List Issue) (m : DayMap) (day : String)
    (h : ∀ p ∈ m.get day, ptrHasState allIssues p) :
    newStat allIssues day (m.get day) = some (statOf allIssues m day) := by
  unfold newStat
  rw [newStat_fold allIssues (m.get day) h]
  simp [statOf]

theorem displayItems_isSome (allIssues : List Issue) (now : Nat → Time)
    (issues : List IssuePtr) (h : ∀ p ∈ issues, ptrWellFormed allIssues p) :
    (displayItems allIssues now issues).isSome = true := by
  unfold displayItems
  apply mapM_isSome
  intro jp hjp
  have hmem : jp.2 ∈ issues := by
    have := List.mem_map_of_mem Prod.snd hjp
    rwa [List.enum_map_snd] at this
  have hwf := h jp.2 hmem
  unfold ptrWellFormed at hwf
  cases hd : deref allIssues jp.2 with
  | none => rw [hd] at hwf; exact hwf.elim
  | some issue =>
    rw [hd] at hwf
    obtain ⟨age, hage⟩ := Option.isSome_iff_exists.mp (itemAge_isSome (now jp.1) issue hwf)
    obtain ⟨state, hstate⟩ := Option.isSome_iff_exists.mp hwf.1
    simp [hage, hstate]

theorem sortStats_perm (l : List stat) : (sortStats l).Perm l :=
  List.perm_insertionSort _ l

theorem sortStats_sorted (l : List stat) :
    List.Sorted (fun x y => x ≤ y) ((sortStats l).map stat.day) := by
  have h : List.Sorted (fun a b : stat => a.day ≤ b.day) (sortStats l) := by
    haveI : IsTotal stat (fun a b => a.day ≤ b.day) := ⟨fun a b => le_total a.day b.day⟩
    haveI : IsTrans stat (fun a b => a.day ≤ b.day) := ⟨fun a b c h1 h2 => le_trans h1 h2⟩
    exact List.sorted_insertionSort _ l
  exact List.pairwise_map.mpr h

theorem eq_of_map_eq_of_injOn {α β : Type} (f : α → β) (l₁ l₂ : List α)
    (hmap : l₁.map f = l₂.map f)
    (hinj : ∀ ⦃x : α⦄, x ∈ l₁ → ∀ ⦃y : α⦄, y ∈ l₁ → f x = f y → x = y)
    (hmem : ∀ x ∈ l₂, x ∈ l₁) : l₁ = l₂ := by
  have hlen : l₁.length = l₂.length := by simpa using congrArg List.length hmap
  apply List.ext_getElem hlen
  intro i h1 h2
  apply hinj (List.getElem_mem h1) (hmem _ (List.getElem_mem h2))
  have e1 : (l₁.map f)[i]? = some (f l₁[i]) := by simp [h1]
  have e2 : (l₂.map f)[i]? = some (f l₂[i]) := by simp [h2]
  rw [hmap, e2] at e1
  exact (Option.some.inj e1).symm

theorem sortStats_unique (l l' : List stat) (hperm : l'.Perm l)
    (hsorted : List.Pairwise (fun a b : stat => ¬ b.day < a.day) l')
    (hnodup : (l.map stat.day).Nodup) : l' = sortStats l := by
  have hd' : List.Sorted (fun x y : String => x ≤ y) (l'.map stat.day) :=
    List.pairwise_map.mpr (hsorted.imp (fun h => not_lt.mp h))
  have hdays : l'.map stat.day = (sortStats l).map stat.day :=
    List.eq_of_perm_of_sorted ((hperm.trans (sortStats_perm l).symm).map stat.day) hd'
      (sortStats_sorted l)
  have hnd' : (l'.map stat.day).Nodup := (hperm.map stat.day).nodup_iff.mpr hnodup
  exact eq_of_map_eq_of_injOn stat.day l' (sortStats l) hdays (List.inj_on_of_nodup_map hnd')
    (fun x hx => hperm.symm.mem_iff.mp ((sortStats_perm l).mem_iff.mp hx))

/-- C3: for every day-bucket map over well-formed items and every order in
which `range` visits its keys, `display` builds exactly one record per key of
the map, carrying the day and the item list stored under it, and prints its
lines in the order of the sorted records, which is strictly ascending in the
day string. -/
theorem display_sorted (allIssues : List Issue) (now : Nat → Nat → Time) (name : String)
    (itemPerDay : DayMap) (order : List String) (horder : order.Perm itemPerDay.keys)
    (hwf : ∀ d ∈ itemPerDay, ∀ p ∈ itemPerDay.get d, ptrWellFormed allIssues p) :
    ∃ itemStat lines,
      displayStats allIssues itemPerDay order = some itemStat ∧
      display allIssues now name itemPerDay order = some (name ++ "s per day", lines) ∧
      lines.map Line.day = itemStat.map stat.day ∧
      (itemStat.map stat.day).Perm itemPerDay.keys ∧
      (∀ st ∈ itemStat, st.issues = itemPerDay.get st.day) ∧
      List.Sorted (fun x y => x < y) (itemStat.map stat.day) := by
  have hmemOrder : ∀ d ∈ order, d ∈ itemPerDay := fun d hd =>
    AList.mem_keys.mpr (horder.mem_iff.mp hd)
  have hmap : order.mapM (fun day => newStat allIssues day (itemPerDay.get day))
      = some (order.map (statOf allIssues itemPerDay)) :=
    mapM_eq_some_map _ _ _ (fun d hd => newStat_eq_statOf allIssues itemPerDay d
      (fun p hp => ptrHasState_of_wellFormed (hwf d (hmemOrder d hd) p hp)))
  have hstats : displayStats allIssues itemPerDay order
      = some (sortStats (order.map (statOf allIssues itemPerDay))) := by
    unfold displayStats
    rw [hmap]
    rfl
  have hperm := sortStats_perm (order.map (statOf allIssues itemPerDay))
  have hdays : ((sortStats (order.map (statOf allIssues itemPerDay))).map stat.day).Perm
      itemPerDay.keys := by
    refine (hperm.map stat.day).trans ?_
    rw [List.map_map]
    have : (stat.day ∘ statOf allIssues itemPerDay) = id := by funext d; rfl
    rw [this, List.map_id]
    exact horder
  have hissues : ∀ st ∈ sortStats (order.map (statOf allIssues itemPerDay)),
      st.issues = itemPerDay.get st.day ∧ st.day ∈ itemPerDay := by
    intro st hst
    obtain ⟨d, hd, rfl⟩ := List.mem_map.mp (hperm.mem_iff.mp hst)
    exact ⟨rfl, hmemOrder d hd⟩
  have hlines : (sortStats (order.map (statOf allIssues itemPerDay))).enum.mapM
      (fun ist => do
        let items ← displayItems allIssues (now ist.1) ist.2.issues
        pure (⟨ist.2.day, ist.2.issues.length, ist.2.net, items⟩ : Line))
      = some ((sortStats (order.map (statOf allIssues itemPerDay))).enum.map
        (fun ist => (⟨ist.2.day, ist.2.issues.length, ist.2.net,
          (displayItems allIssues (now ist.1) ist.2.issues).getD []⟩ : Line))) := by
    apply mapM_eq_some_map
    intro ist hist
    have hmem : ist.2 ∈ sortStats (order.map (statOf allIssues itemPerDay)) := by
      have := List.mem_map_of_mem Prod.snd hist
      rwa [List.enum_map_snd] at this
    obtain ⟨hi, hd⟩ := hissues ist.2 hmem
    obtain ⟨items, hitems⟩ := Option.isSome_iff_exists.mp
      (displayItems_isSome allIssues (now ist.1) ist.2.issues
        (fun p hp => hwf ist.2.day hd p (hi ▸ hp)))
    simp [hitems]
  refine ⟨_, (sortStats (order.map (statOf allIssues itemPerDay))).enum.map
        (fun ist => (⟨ist.2.day, ist.2.issues.length, ist.2.net,
          (displayItems allIssues (now ist.1) ist.2.issues).getD []⟩ : Line)),
    hstats, ?_, ?_, hdays, fun st hst => (hissues st hst).1, ?_⟩
  · have hdisp : display allIssues now name itemPerDay order
        = ((sortStats (order.map (statOf allIssues itemPerDay))).enum.mapM
            (fun ist => do
              let items ← displayItems allIssues (now ist.1) ist.2.issues
              pure (⟨ist.2.day, ist.2.issues.length, ist.2.net, items⟩ : Line))) >>=
          fun lines => pure (name ++ "s per day", lines) := by
      unfold display
      rw [hstats]
      rfl
    rw [hdisp, hlines]
    rfl
  · rw [List.map_map]
    have : (Line.day ∘ fun ist : Nat × stat => (⟨ist.2.day, ist.2.issues.length, ist.2.net,
          (displayItems allIssues (now ist.1) ist.2.issues).getD []⟩ : Line))
        = stat.day ∘ Prod.snd := by funext ist; rfl
    rw [this, ← List.map_map, List.enum_map_snd]
  · exact (sortStats_sorted _).lt_of_le
      (hdays.nodup_iff.mpr itemPerDay.keys_nodup)

theorem display_sorted_witness :
    ["2024-01-10", "2024-01-02", "2023-12-31"].Perm sortExample.keys ∧
    (∀ d ∈ sortExample, ∀ p ∈ sortExample.get d, ptrWellFormed dayExample p) ∧
    ∃ itemStat lines,
      displayStats dayExample sortExample ["2024-01-10", "2024-01-02", "2023-12-31"]
        = some itemStat ∧
      display dayExample (fun _ _ => ⟨1709834400, 0, 0⟩) "Issue" sortExample
        ["2024-01-10", "2024-01-02", "2023-12-31"] = some ("Issues per day", lines) ∧
      lines.map Line.day = ["2023-12-31", "2024-01-02", "2024-01-10"] := by
  have hperm : ["2024-01-10", "2024-01-02", "2023-12-31"].Perm sortExample.keys := by decide!
  have hwf : ∀ d ∈ sortExample, ∀ p ∈ sortExample.get d, ptrWellFormed dayExample p := by
    intro d hd p hp
    have hk : d ∈ sortExample.keys := AList.mem_keys.mp hd
    have hkeys : sortExample.keys = ["2023-12-31", "2024-01-02", "2024-01-10"] := by decide!
    rw [hkeys] at hk
    simp only [List.mem_cons, List.mem_singleton, List.not_mem_nil, or_false] at hk
    rcases hk with rfl | rfl | rfl
    · have hg : sortExample.get "2023-12-31" = [0] := by decide!
      rw [hg] at hp; simp only [List.mem_singleton] at hp; subst hp; decide
    · have hg : sortExample.get "2024-01-02" = [1] := by decide!
      rw [hg] at hp; simp only [List.mem_singleton] at hp; subst hp; decide
    · have hg : sortExample.get "2024-01-10" = [0] := by decide!
      rw [hg] at hp; simp only [List.mem_singleton] at hp; subst hp; decide
  refine ⟨hperm, hwf, ?_⟩
  obtain ⟨itemStat, lines, h1, h2, h3, _, _, _⟩ :=
    display_sorted dayExample (fun _ _ => ⟨1709834400, 0, 0⟩) "Issue" sortExample
      ["2024-01-10", "2024-01-02", "2023-12-31"] hperm hwf
  refine ⟨itemStat, lines, h1, h2, ?_⟩
  have hs : (displayStats dayExample sortExample ["2024-01-10", "2024-01-02", "2023-12-31"]).map
      (fun l => l.map stat.day) = some ["2023-12-31", "2024-01-02", "2024-01-10"] := by decide!
  rw [h1] at hs
  rw [h3]
  exact Option.some.inj hs

/-! ## `getAllIssuesFromGithub` -/

theorem fetchLoop_pages (server : Server) (pages : List (List Issue × Int)) :
    ∀ (fuel calls : Nat) (page : Int) (allIssues : List Issue) (trace : List Int),
      pages ≠ [] → ServesPages server calls page pages → pages.length ≤ fuel →
      fetchLoop server fuel calls page allIssues trace
        = .ok (allIssues ++ (pages.map (fun pg => pg.1)).flatten,
            trace ++ page :: pages.dropLast.map (fun pg => pg.2)) := by
  induction pages with
  | nil => intro _ _ _ _ _ h; exact absurd rfl h
  | cons pg rest ih =>
    intro fuel calls page allIssues trace _ hs hfuel
    obtain ⟨issues, next⟩ := pg
    obtain ⟨hreply, hnext, hrest⟩ := hs
    cases fuel with
    | zero => simp at hfuel
    | succ fuel =>
      have hfuel' : rest.length ≤ fuel := by simpa using hfuel
      by_cases hr : rest = []
      · subst hr
        have h0 : next = 0 := hnext.mpr rfl
        simp [fetchLoop, hreply, Reply.response, Reply.issues, h0]
      · have h0 : next ≠ 0 := fun h => hr (hnext.mp h)
        have := ih fuel (calls + 1) next (allIssues ++ issues) (trace ++ [page]) hr hrest hfuel'
        simp only [fetchLoop, hreply, Reply.response, Reply.issues, h0, if_false]
        rw [this]
        simp [List.dropLast_cons_of_ne_nil hr]

/-- C5: when the remote side serves `n ≥ 1` error-free pages of which all but
the last carry a non-zero cursor and the last carries the cursor 0, and the
fuel allows `n` iterations, `getAllIssuesFromGithub` returns the concatenation
of the pages in the order of the requests after exactly `n` requests, the
first for page 0 and each later one for the cursor of the response before it;
the number of issues returned is the sum of the sizes of the pages. -/
theorem getAllIssuesFromGithub_pages (server : Server) (pages : List (List Issue × Int))
    (fuel : Nat) (hne : pages ≠ []) (hs : ServesPages server 0 0 pages)
    (hfuel : pages.length ≤ fuel) :
    getAllIssuesFromGithub server fuel
        = .ok ((pages.map (fun pg => pg.1)).flatten, requestedPages pages) ∧
      (requestedPages pages).length = pages.length ∧
      ((pages.map (fun pg => pg.1)).flatten).length = (pages.map (fun pg => pg.1.length)).sum := by
  refine ⟨?_, ?_, ?_⟩
  · unfold getAllIssuesFromGithub requestedPages
    rw [fetchLoop_pages server pages fuel 0 0 [] [] hne hs hfuel]
    simp
  · cases pages with
    | nil => exact absurd rfl hne
    | cons pg rest => simp [requestedPages]
  · simp [List.length_flatten, Function.comp_def]

theorem getAllIssuesFromGithub_pages_witness :
    pagesExample ≠ [] ∧ ServesPages serverExample 0 0 pagesExample ∧ pagesExample.length ≤ 3 ∧
    getAllIssuesFromGithub serverExample 3
        = .ok ([dayExampleOpen, dayExampleClosed, dayExampleOpen], [0, 2, 3]) ∧
      (requestedPages pagesExample).length = 3 ∧
      ((pagesExample.map (fun pg => pg.1)).flatten).length = 3 := by
  have hs : ServesPages serverExample 0 0 pagesExample := by
    simp [ServesPages, pagesExample, serverExample]
  have h := getAllIssuesFromGithub_pages serverExample pagesExample 3 (by decide) hs (by decide)
  exact ⟨by decide, hs, by decide, h.1, h.2.1, by decide⟩

/-- C6, the failing input: when the first call of `ListByRepo` fails without a
response, `getAllIssuesFromGithub` reads `NextPage` through the nil response and
panics, whatever the fuel: it never returns a list. -/
theorem getAllIssuesFromGithub_unreachable_panics (fuel : Nat) :
    getAllIssuesFromGithub unreachableServer (fuel + 1) = .error Stop.panic := by
  rfl

/-- A failed call that comes with a response adds no issue: the loop stops
when the cursor of that response is 0. -/
theorem fetchLoop_failed_stop (server : Server) (fuel calls : Nat) (page : Int)
    (allIssues : List Issue) (trace : List Int) (err : String)
    (h : server calls page = Reply.failed err (some ⟨0⟩)) :
    fetchLoop server (fuel + 1) calls page allIssues trace = .ok (allIssues, trace ++ [page]) := by
  simp [fetchLoop, h, Reply.response, Reply.issues]

/-- A failed call that comes with a response adds no issue: the loop goes on
with the cursor of that response when it is not 0. -/
theorem fetchLoop_failed_continue (server : Server) (fuel calls : Nat) (page next : Int)
    (allIssues : List Issue) (trace : List Int) (err : String) (hnext : next ≠ 0)
    (h : server calls page = Reply.failed err (some ⟨next⟩)) :
    fetchLoop server (fuel + 1) calls page allIssues trace
      = fetchLoop server fuel (calls + 1) next allIssues (trace ++ [page]) := by
  simp [fetchLoop, h, Reply.response, Reply.issues, hnext]

/-! ## `main` -/

theorem serverExample_fetch :
    getAllIssuesFromGithub serverExample 3
      = .ok ([dayExampleOpen, dayExampleClosed, dayExampleOpen], [0, 2, 3]) := by
  rfl

/-- Past the check of `GITHUB_TOKEN`, when `issues.json` exists the only call of
`main` is `readIssuesFromDisk` and its result is the snapshot; when the file is
absent the first call is `getAllIssuesFromGithub`, and when it returns it is
followed by exactly one `writeIssueToDisk` on its result, which is the
snapshot, and by nothing else. -/
theorem main_cache_precedence (env : Env) (fuel : Nat) (now : Bool → Nat → Nat → Time)
    (order : Bool → DayMap → List String) (htoken : env.token ≠ "") :
    (∀ allIssues, env.disk = some allIssues →
      (main env fuel now order).calls = [Call.readIssuesFromDisk] ∧
      (main env fuel now order).snapshot = some allIssues) ∧
    (env.disk = none →
      (∀ allIssues trace, getAllIssuesFromGithub env.server fuel = .ok (allIssues, trace) →
        (main env fuel now order).calls
          = [Call.getAllIssuesFromGithub, Call.writeIssueToDisk allIssues] ∧
        (main env fuel now order).snapshot = some allIssues) ∧
      (∀ e, getAllIssuesFromGithub env.server fuel = .error e →
        (main env fuel now order).calls = [Call.getAllIssuesFromGithub])) := by
  refine ⟨?_, ?_⟩
  · intro allIssues hdisk
    simp [main, htoken, hdisk]
  · intro hdisk
    refine ⟨?_, ?_⟩
    · intro allIssues trace hfetch
      simp [main, htoken, hdisk, hfetch]
    · intro e hfetch
      simp [main, htoken, hdisk, hfetch]

theorem main_cache_precedence_witness :
    ("token" : String) ≠ "" ∧
    (main ⟨"token", some dayExample, serverExample⟩ 3 (fun _ _ _ => ⟨1709834400, 0, 0⟩)
        (fun _ m => m.keys)).calls = [Call.readIssuesFromDisk] ∧
    (main ⟨"token", none, serverExample⟩ 3 (fun _ _ _ => ⟨1709834400, 0, 0⟩)
        (fun _ m => m.keys)).calls
      = [Call.getAllIssuesFromGithub,
          Call.writeIssueToDisk [dayExampleOpen, dayExampleClosed, dayExampleOpen]] := by
  have h1 := main_cache_precedence ⟨"token", some dayExample, serverExample⟩ 3
    (fun _ _ _ => ⟨1709834400, 0, 0⟩) (fun _ m => m.keys) (by decide)
  have h2 := main_cache_precedence ⟨"token", none, serverExample⟩ 3
    (fun _ _ _ => ⟨1709834400, 0, 0⟩) (fun _ m => m.keys) (by decide)
  refine ⟨by decide, (h1.1 dayExample rfl).1, ?_⟩
  exact ((h2.2 rfl).1 [dayExampleOpen, dayExampleClosed, dayExampleOpen] [0, 2, 3]
    serverExample_fetch).1

/-- C10, the failing input: with a token, no `issues.json` and a remote side
that cannot be reached, `main` calls `getAllIssuesFromGithub` once and panics
inside it on the nil response: no `writeIssueToDisk` follows the fetch and
there is no snapshot, whatever the fuel, the clock and the order of the maps. -/
theorem main_unreachable_no_save (fuel : Nat) (now : Bool → Nat → Nat → Time)
    (order : Bool → DayMap → List String) :
    (main ⟨"token", none, unreachableServer⟩ (fuel + 1) now order).calls
      = [Call.getAllIssuesFromGithub] ∧
    (main ⟨"token", none, unreachableServer⟩ (fuel + 1) now order).snapshot = none ∧
    (main ⟨"token", none, unreachableServer⟩ (fuel + 1) now order).result
      = .error Stop.panic := by
  refine ⟨?_, ?_, ?_⟩ <;> rfl

/-! ## `float64` rounding -/

theorem roundHalfEven_le {q : ℚ} {n : Int} (h : q ≤ n) : roundHalfEven q ≤ n := by
  have hfl : ⌊q⌋ ≤ n := Int.floor_le_floor h |>.trans_eq (Int.floor_intCast n)
  unfold roundHalfEven
  by_cases hlt : ⌊q⌋ < n
  · split_ifs <;> omega
  · have heq : ⌊q⌋ = n := le_antisymm hfl (not_lt.mp hlt)
    have hq : q - ⌊q⌋ < 1 / 2 := by
      have := Int.floor_le q
      rw [heq] at this ⊢
      have : q = n := le_antisymm h this
      rw [this]; norm_num
    rw [if_pos hq]; exact hfl

theorem le_roundHalfEven {q : ℚ} {n : Int} (h : (n : ℚ) ≤ q) : n ≤ roundHalfEven q := by
  have hfl : n ≤ ⌊q⌋ := Int.le_floor.mpr h
  unfold roundHalfEven
  split_ifs <;> omega

theorem roundHalfEven_intCast (n : Int) : roundHalfEven (n : ℚ) = n :=
  le_antisymm (roundHalfEven_le le_rfl) (le_roundHalfEven le_rfl)

theorem two_zpow_pos (e : Int) : (0 : ℚ) < 2 ^ e := zpow_pos (by norm_num) e

theorem exists_int_of_le_exp (m j e : Int) (h : e ≤ j) :
    ∃ n : Int, (m : ℚ) * 2 ^ j / 2 ^ e = n := by
  obtain ⟨k, hk⟩ := Int.eq_ofNat_of_zero_le (show 0 ≤ j - e by omega)
  refine ⟨m * 2 ^ k, ?_⟩
  have hne : (2 : ℚ) ≠ 0 := by norm_num
  rw [mul_div_assoc, ← zpow_sub₀ hne, hk, zpow_natCast]
  push_cast
  rfl

theorem abs_le_of_exp_lt (x : ℚ) (m j : Int) (hm : |m| ≤ 2 ^ 53) (hj : -1074 ≤ j)
    (hlt : j < ulpExp x) (hx : x ≠ 0) :
    ulpExp x = Int.log 2 |x| - 52 ∧ (2 : ℚ) ^ (ulpExp x + 52) ≤ |x| ∧
      |(m : ℚ) * 2 ^ j| ≤ 2 ^ (ulpExp x + 52) := by
  have he : ulpExp x = Int.log 2 |x| - 52 := by
    unfold ulpExp at hlt ⊢
    rcases max_choice (Int.log 2 |x| - 52) (-1074) with h | h
    · exact h
    · rw [h] at hlt; omega
  refine ⟨he, ?_, ?_⟩
  · have := Int.zpow_log_le_self (R := ℚ) (b := 2) (by norm_num) (abs_pos.mpr hx)
    rw [he]
    simpa using this
  · rw [abs_mul, abs_of_pos (two_zpow_pos j)]
    have hm' : |(m : ℚ)| ≤ 2 ^ (53 : Int) := by
      have h1 : ((|m| : Int) : ℚ) ≤ ((2 ^ 53 : Int) : ℚ) := by exact_mod_cast hm
      have h2 : ((2 ^ 53 : Int) : ℚ) = 2 ^ (53 : Int) := by norm_num
      rw [Int.cast_abs, h2] at h1
      exact h1
    calc |(m : ℚ)| * 2 ^ j ≤ 2 ^ (53 : Int) * 2 ^ j :=
          mul_le_mul_of_nonneg_right hm' (two_zpow_pos j).le
      _ = 2 ^ (53 + j) := (zpow_add₀ (by norm_num) 53 j).symm
      _ ≤ 2 ^ (ulpExp x + 52) := zpow_le_zpow_right₀ (by norm_num) (by omega)

theorem roundF64_zero : roundF64 0 = 0 := by
  unfold roundF64
  have : roundHalfEven (0 / 2 ^ ulpExp 0) = 0 := by
    rw [zero_div]; exact_mod_cast roundHalfEven_intCast 0
  rw [this]; simp

/-- Rounding does not step over a `float64`: a value that is at most the
`float64` number `m * 2^j` rounds to at most that number. -/
theorem roundF64_le (x : ℚ) (m j : Int) (hm : |m| ≤ 2 ^ 53) (hj : -1074 ≤ j)
    (hxy : x ≤ m * 2 ^ j) : roundF64 x ≤ m * 2 ^ j := by
  have hu := two_zpow_pos (ulpExp x)
  by_cases hje : ulpExp x ≤ j
  · obtain ⟨n, hn⟩ := exists_int_of_le_exp m j (ulpExp x) hje
    have h1 : x / 2 ^ ulpExp x ≤ n := by
      rw [← hn]; exact div_le_div_of_nonneg_right hxy hu.le
    have h2 : ((roundHalfEven (x / 2 ^ ulpExp x) : Int) : ℚ) ≤ n := by
      exact_mod_cast roundHalfEven_le h1
    have h3 : (m : ℚ) * 2 ^ j = n * 2 ^ ulpExp x := by
      rw [← hn]; field_simp
    unfold roundF64
    rw [h3]
    exact mul_le_mul_of_nonneg_right h2 hu.le
  · by_cases hx : x = 0
    · subst hx; rw [roundF64_zero]; exact hxy
    · obtain ⟨_, hlo, hhi⟩ := abs_le_of_exp_lt x m j hm hj (not_le.mp hje) hx
      have hsplit : (2 : ℚ) ^ (ulpExp x + 52) = 2 ^ (52 : Int) * 2 ^ ulpExp x := by
        rw [add_comm]; exact zpow_add₀ (by norm_num) 52 (ulpExp x)
      rcases lt_or_gt_of_ne hx with hneg | hpos
      · rw [abs_of_neg hneg] at hlo
        have h1 : x / 2 ^ ulpExp x ≤ ((-(2 ^ 52) : Int) : ℚ) := by
          rw [div_le_iff₀ hu]
          push_cast
          rw [hsplit] at hlo
          have : ((2 : ℚ) ^ (52 : Int)) = 2 ^ 52 := by norm_cast
          rw [this] at hlo
          linarith
        have h2 : ((roundHalfEven (x / 2 ^ ulpExp x) : Int) : ℚ) ≤ ((-(2 ^ 52) : Int) : ℚ) := by
          exact_mod_cast roundHalfEven_le h1
        unfold roundF64
        calc ((roundHalfEven (x / 2 ^ ulpExp x) : Int) : ℚ) * 2 ^ ulpExp x
            ≤ ((-(2 ^ 52) : Int) : ℚ) * 2 ^ ulpExp x := mul_le_mul_of_nonneg_right h2 hu.le
          _ = -(2 ^ (ulpExp x + 52)) := by
            have h52 : ((-(2 ^ 52) : Int) : ℚ) = -(2 ^ (52 : Int)) := by norm_num
            rw [hsplit, h52]; ring
          _ ≤ m * 2 ^ j := by
            have := (abs_le.mp hhi).1
            linarith
      · rw [abs_of_pos hpos] at hlo
        have hy : (m : ℚ) * 2 ^ j ≤ 2 ^ (ulpExp x + 52) := (abs_le.mp hhi).2
        have hxe : x = 2 ^ (ulpExp x + 52) := le_antisymm (hxy.trans hy) hlo
        have h1 : x / 2 ^ ulpExp x = ((2 ^ 52 : Int) : ℚ) := by
          rw [div_eq_iff hu.ne']
          conv_lhs => rw [hxe, hsplit]
          push_cast; norm_cast
        have h2 : roundHalfEven (x / 2 ^ ulpExp x) = (2 ^ 52 : Int) := by
          rw [h1]; exact roundHalfEven_intCast _
        have h3 : roundF64 x = x := by
          unfold roundF64
          rw [h2]
          conv_rhs => rw [hxe, hsplit]
          push_cast; norm_cast
        rw [h3]; exact hxy

/-- Rounding does not step over a `float64`: a value that is at least the
`float64` number `m * 2^j` rounds to at least that number. -/
theorem le_roundF64 (x : ℚ) (m j : Int) (hm : |m| ≤ 2 ^ 53) (hj : -1074 ≤ j)
    (hxy : (m : ℚ) * 2 ^ j ≤ x) : (m : ℚ) * 2 ^ j ≤ roundF64 x := by
  have hu := two_zpow_pos (ulpExp x)
  by_cases hje : ulpExp x ≤ j
  · obtain ⟨n, hn⟩ := exists_int_of_le_exp m j (ulpExp x) hje
    have h1 : (n : ℚ) ≤ x / 2 ^ ulpExp x := by
      rw [← hn]; exact div_le_div_of_nonneg_right hxy hu.le
    have h2 : (n : ℚ) ≤ ((roundHalfEven (x / 2 ^ ulpExp x) : Int) : ℚ) := by
      exact_mod_cast le_roundHalfEven h1
    have h3 : (m : ℚ) * 2 ^ j = n * 2 ^ ulpExp x := by
      rw [← hn]; field_simp
    unfold roundF64
    rw [h3]
    exact mul_le_mul_of_nonneg_right h2 hu.le
  · by_cases hx : x = 0
    · subst hx; rw [roundF64_zero]; exact hxy
    · obtain ⟨_, hlo, hhi⟩ := abs_le_of_exp_lt x m j hm hj (not_le.mp hje) hx
      have hsplit : (2 : ℚ) ^ (ulpExp x + 52) = 2 ^ (52 : Int) * 2 ^ ulpExp x := by
        rw [add_comm]; exact zpow_add₀ (by norm_num) 52 (ulpExp x)
      have h52 : (((2 ^ 52 : Int)) : ℚ) = 2 ^ (52 : Int) := by norm_num
      rcases lt_or_gt_of_ne hx with hneg | hpos
      · rw [abs_of_neg hneg] at hlo
        have hy : -(2 : ℚ) ^ (ulpExp x + 52) ≤ (m : ℚ) * 2 ^ j := (abs_le.mp hhi).1
        have hxe : x = -(2 ^ (ulpExp x + 52)) := by
          apply le_antisymm
          · linarith
          · exact hy.trans hxy
        have h1 : x / 2 ^ ulpExp x = ((-(2 ^ 52) : Int) : ℚ) := by
          rw [div_eq_iff hu.ne']
          conv_lhs => rw [hxe, hsplit]
          push_cast [h52]; norm_num
        have h2 : roundHalfEven (x / 2 ^ ulpExp x) = (-(2 ^ 52) : Int) := by
          rw [h1]; exact roundHalfEven_intCast _
        have h3 : roundF64 x = x := by
          unfold roundF64
          rw [h2]
          conv_rhs => rw [hxe, hsplit]
          push_cast [h52]; norm_num
        rw [h3]; exact hxy
      · rw [abs_of_pos hpos] at hlo
        have h1 : ((2 ^ 52 : Int) : ℚ) ≤ x / 2 ^ ulpExp x := by
          rw [le_div_iff₀ hu, h52, ← hsplit]
          exact hlo
        have h2 : ((2 ^ 52 : Int) : ℚ) ≤ ((roundHalfEven (x / 2 ^ ulpExp x) : Int) : ℚ) := by
          exact_mod_cast le_roundHalfEven h1
        unfold roundF64
        calc (m : ℚ) * 2 ^ j ≤ 2 ^ (ulpExp x + 52) := (abs_le.mp hhi).2
          _ = ((2 ^ 52 : Int) : ℚ) * 2 ^ ulpExp x := by rw [hsplit, h52]
          _ ≤ ((roundHalfEven (x / 2 ^ ulpExp x) : Int) : ℚ) * 2 ^ ulpExp x :=
            mul_le_mul_of_nonneg_right h2 hu.le

/-- An integer of at most 53 bits is a `float64`: the conversion of it is
exact. -/
theorem roundF64_intCast (n : Int) (hn : |n| ≤ 2 ^ 53) : roundF64 (n : ℚ) = n := by
  have h1 := roundF64_le (n : ℚ) n 0 hn (by norm_num) (by simp)
  have h2 := le_roundF64 (n : ℚ) n 0 hn (by norm_num) (by simp)
  simp only [zpow_zero, mul_one] at h1 h2
  exact le_antisymm h1 h2

theorem mul_zpow_neg_eq_div (m : Int) (p : Nat) :
    (m : ℚ) * 2 ^ (-(p : Int)) = m / 2 ^ p := by
  rw [zpow_neg, zpow_natCast, div_eq_mul_inv]

theorem roundF64_le_div (x : ℚ) (m : Int) (p : Nat) (hm : |m| ≤ 2 ^ 53) (hp : p ≤ 1074)
    (h : x ≤ m / 2 ^ p) : roundF64 x ≤ m / 2 ^ p := by
  rw [← mul_zpow_neg_eq_div] at h ⊢
  exact roundF64_le x m (-(p : Int)) hm (by omega) h

theorem le_roundF64_div (x : ℚ) (m : Int) (p : Nat) (hm : |m| ≤ 2 ^ 53) (hp : p ≤ 1074)
    (h : (m : ℚ) / 2 ^ p ≤ x) : (m : ℚ) / 2 ^ p ≤ roundF64 x := by
  rw [← mul_zpow_neg_eq_div] at h ⊢
  exact le_roundF64 x m (-(p : Int)) hm (by omega) h

/-- The value of `d.Hours() / 24` for a non-negative duration of whole seconds
lies between the number of whole days and the next integer, which it does not
reach. -/
theorem hoursDiv24_bounds (d : Int) (h0 : 0 ≤ d) (hmax : d ≤ maxDuration)
    (hsec : d % 1000000000 = 0) :
    ((d / 86400000000000 : Int) : ℚ) ≤ roundF64 (Hours d / 24) ∧
      roundF64 (Hours d / 24) < ((d / 86400000000000 : Int) : ℚ) + 1 := by
  unfold maxDuration at hmax
  have hdiv : Int.tdiv d Hour = d / 3600000000000 := Int.tdiv_eq_ediv h0 (by decide)
  have hmod : Int.tmod d Hour = d % 3600000000000 := Int.tmod_eq_emod h0 (by decide)
  unfold Hours
  rw [hdiv, hmod]
  generalize hk : d / 86400000000000 = k
  generalize hh : d / 3600000000000 = hour
  generalize hn : d % 3600000000000 = nsec
  have hk0 : 0 ≤ k := by omega
  have hk1 : k ≤ 106751 := by omega
  have hh1 : 24 * k ≤ hour := by omega
  have hh2 : hour ≤ 24 * k + 23 := by omega
  have hn0 : 0 ≤ nsec := by omega
  have hn1 : nsec ≤ 3599000000000 := by omega
  have hA : roundF64 (hour : ℚ) = hour := roundF64_intCast hour (by rw [abs_le]; omega)
  have hB : roundF64 (nsec : ℚ) = nsec := roundF64_intCast nsec (by rw [abs_le]; omega)
  rw [hA, hB]
  have hq0 : (0 : ℚ) ≤ nsec := by exact_mod_cast hn0
  have hq1 : (nsec : ℚ) ≤ 3599000000000 := by exact_mod_cast hn1
  have hC0 : (0 : ℚ) ≤ roundF64 ((nsec : ℚ) / 3600000000000) := by
    have := le_roundF64_div ((nsec : ℚ) / 3600000000000) 0 0 (by norm_num) (by norm_num)
      (by simp; positivity)
    simpa using this
  have hC1 : roundF64 ((nsec : ℚ) / 3600000000000) ≤ 4095 / 4096 := by
    have := roundF64_le_div ((nsec : ℚ) / 3600000000000) 4095 12 (by norm_num) (by norm_num)
      (by rw [div_le_iff₀ (by norm_num)]; norm_num; linarith)
    norm_num at this
    exact this
  generalize roundF64 ((nsec : ℚ) / 3600000000000) = C at hC0 hC1
  have hkq0 : (0 : ℚ) ≤ k := by exact_mod_cast hk0
  have hkq1 : (k : ℚ) ≤ 106751 := by exact_mod_cast hk1
  have hhq1 : (24 : ℚ) * k ≤ hour := by exact_mod_cast hh1
  have hhq2 : (hour : ℚ) ≤ 24 * k + 23 := by exact_mod_cast hh2
  have hD0 : (24 : ℚ) * k ≤ roundF64 (hour + C) := by
    have := le_roundF64_div (hour + C) (24 * k) 0 (by rw [abs_le]; omega) (by norm_num)
      (by push_cast; simp; linarith)
    push_cast at this
    simpa using this
  have hD1 : roundF64 (hour + C) ≤ 24 * k + 24 - 1 / 4096 := by
    have := roundF64_le_div (hour + C) ((24 * k + 24) * 4096 - 1) 12 (by rw [abs_le]; omega)
      (by norm_num) (by push_cast; norm_num; linarith)
    push_cast at this
    norm_num at this
    linarith
  generalize roundF64 (hour + C) = D at hD0 hD1
  have hE0 : (k : ℚ) ≤ roundF64 (D / 24) := by
    have := le_roundF64_div (D / 24) k 0 (by rw [abs_le]; omega) (by norm_num)
      (by simp; rw [le_div_iff₀ (by norm_num)]; linarith)
    simpa using this
  have hE1 : roundF64 (D / 24) ≤ k + 1 - 1 / 131072 := by
    have := roundF64_le_div (D / 24) ((k + 1) * 131072 - 1) 17 (by rw [abs_le]; omega)
      (by norm_num) (by push_cast; norm_num; rw [div_le_iff₀ (by norm_num)]; linarith)
    push_cast at this
    norm_num at this
    linarith
  exact ⟨hE0, by linarith⟩

/-- The value of `d.Hours() / 24` for a non-positive duration of whole seconds
lies between minus the number of whole days and the integer below, which it
does not reach. -/
theorem hoursDiv24_bounds_neg (d : Int) (h0 : d ≤ 0) (hmin : minDuration ≤ d)
    (hsec : d % 1000000000 = 0) :
    -((-d / 86400000000000 : Int) : ℚ) - 1 < roundF64 (Hours d / 24) ∧
      roundF64 (Hours d / 24) ≤ -((-d / 86400000000000 : Int) : ℚ) := by
  unfold minDuration at hmin
  have hdiv : Int.tdiv d Hour = -(-d / 3600000000000) := by
    have h1 : Int.tdiv (-d) Hour = -d / 3600000000000 :=
      Int.tdiv_eq_ediv (by omega) (by decide)
    have h2 := Int.neg_tdiv (-d) Hour
    rw [neg_neg] at h2
    rw [h2, h1]
  have hmod : Int.tmod d Hour = -(-d % 3600000000000) := by
    rw [Int.tmod_def, hdiv]
    unfold Hour
    omega
  unfold Hours
  rw [hdiv, hmod]
  generalize hk : -d / 86400000000000 = k
  generalize hh : -d / 3600000000000 = hour
  generalize hn : -d % 3600000000000 = nsec
  have hk0 : 0 ≤ k := by omega
  have hk1 : k ≤ 106751 := by omega
  have hh1 : 24 * k ≤ hour := by omega
  have hh2 : hour ≤ 24 * k + 23 := by omega
  have hn0 : 0 ≤ nsec := by omega
  have hn1 : nsec ≤ 3599000000000 := by omega
  have hA : roundF64 ((-hour : Int) : ℚ) = (-hour : Int) :=
    roundF64_intCast (-hour) (by rw [abs_le]; omega)
  have hB : roundF64 ((-nsec : Int) : ℚ) = (-nsec : Int) :=
    roundF64_intCast (-nsec) (by rw [abs_le]; omega)
  rw [hA, hB]
  push_cast
  have hq0 : (0 : ℚ) ≤ nsec := by exact_mod_cast hn0
  have hq1 : (nsec : ℚ) ≤ 3599000000000 := by exact_mod_cast hn1
  have hC0 : roundF64 (-(nsec : ℚ) / 3600000000000) ≤ 0 := by
    have := roundF64_le_div (-(nsec : ℚ) / 3600000000000) 0 0 (by norm_num) (by norm_num)
      (by simp; rw [div_le_iff₀ (by norm_num)]; linarith)
    simpa using this
  have hC1 : -(4095 / 4096 : ℚ) ≤ roundF64 (-(nsec : ℚ) / 3600000000000) := by
    have := le_roundF64_div (-(nsec : ℚ) / 3600000000000) (-4095) 12 (by norm_num)
      (by norm_num) (by rw [le_div_iff₀ (by norm_num)]; norm_num; linarith)
    norm_num at this
    linarith
  generalize roundF64 (-(nsec : ℚ) / 3600000000000) = C at hC0 hC1
  have hkq0 : (0 : ℚ) ≤ k := by exact_mod_cast hk0
  have hkq1 : (k : ℚ) ≤ 106751 := by exact_mod_cast hk1
  have hhq1 : (24 : ℚ) * k ≤ hour := by exact_mod_cast hh1
  have hhq2 : (hour : ℚ) ≤ 24 * k + 23 := by exact_mod_cast hh2
  have hD0 : roundF64 (-(hour : ℚ) + C) ≤ -(24 * k) := by
    have := roundF64_le_div (-(hour : ℚ) + C) (-(24 * k)) 0 (by rw [abs_le]; omega)
      (by norm_num) (by push_cast; simp; linarith)
    push_cast at this
    simpa using this
  have hD1 : -(24 * k + 24 - 1 / 4096 : ℚ) ≤ roundF64 (-(hour : ℚ) + C) := by
    have := le_roundF64_div (-(hour : ℚ) + C) (-((24 * k + 24) * 4096 - 1)) 12
      (by rw [abs_le]; omega) (by norm_num) (by push_cast; norm_num; linarith)
    push_cast at this
    norm_num at this
    linarith
  generalize roundF64 (-(hour : ℚ) + C) = D at hD0 hD1
  have hE0 : roundF64 (D / 24) ≤ -(k : ℚ) := by
    have := roundF64_le_div (D / 24) (-k) 0 (by rw [abs_le]; omega) (by norm_num)
      (by push_cast; simp; rw [div_le_iff₀ (by norm_num)]; linarith)
    push_cast at this
    simpa using this
  have hE1 : -(k + 1 - 1 / 131072 : ℚ) ≤ roundF64 (D / 24) := by
    have := le_roundF64_div (D / 24) (-((k + 1) * 131072 - 1)) 17 (by rw [abs_le]; omega)
      (by norm_num) (by push_cast; norm_num; rw [le_div_iff₀ (by norm_num)]; linarith)
    push_cast at this
    norm_num at this
    linarith
  exact ⟨by linarith, hE0⟩

/-- The expression `int(d.Hours() / 24)` on a duration of whole seconds is the
quotient of the duration by 24 hours, truncated toward zero. -/
theorem wholeDays_eq_tdiv (d : Int) (hmin : minDuration ≤ d) (hmax : d ≤ maxDuration)
    (hsec : d % 1000000000 = 0) : wholeDays d = Int.tdiv d 86400000000000 := by
  unfold wholeDays truncToInt
  rcases le_or_lt 0 d with h0 | h0
  · obtain ⟨hlo, hhi⟩ := hoursDiv24_bounds d h0 hmax hsec
    rw [Int.tdiv_eq_ediv h0 (by decide)]
    have hk0 : (0 : ℚ) ≤ ((d / 86400000000000 : Int) : ℚ) := by
      have : 0 ≤ d / 86400000000000 := by omega
      exact_mod_cast this
    rw [if_pos (hk0.trans hlo)]
    exact Int.floor_eq_iff.mpr ⟨hlo, hhi⟩
  · obtain ⟨hlo, hhi⟩ := hoursDiv24_bounds_neg d h0.le hmin hsec
    have htdiv : Int.tdiv d 86400000000000 = -(-d / 86400000000000) := by
      have h1 : Int.tdiv (-d) 86400000000000 = -d / 86400000000000 :=
        Int.tdiv_eq_ediv (by omega) (by decide)
      have h2 := Int.neg_tdiv (-d) 86400000000000
      rw [neg_neg] at h2
      rw [h2, h1]
    rw [htdiv]
    have hk0 : (0 : ℚ) ≤ ((-d / 86400000000000 : Int) : ℚ) := by
      have : 0 ≤ -d / 86400000000000 := by omega
      exact_mod_cast this
    split_ifs with hE
    · apply Int.floor_eq_iff.mpr
      push_cast
      constructor <;> linarith
    · apply Int.ceil_eq_iff.mpr
      push_cast
      exact ⟨hlo, hhi⟩

/-! ## The age of a closed item -/

theorem sub_bounds (t u : Time) : minDuration ≤ t.Sub u ∧ t.Sub u ≤ maxDuration := by
  unfold Time.Sub
  simp only
  split_ifs with h1 h2
  · exact ⟨le_rfl, by decide⟩
  · exact ⟨by decide, le_rfl⟩
  · exact ⟨not_lt.mp h1, not_lt.mp h2⟩

/-- C4, as amended: for an item in state `"closed"` whose `createdAt` and
`closedAt` are present and a whole number of seconds apart, the age computed in
`display` is the duration `createdAt - closedAt`, in that order, divided by 24
hours and truncated toward zero. -/
theorem itemAge_closed (now : Time) (issue : Issue) (createdAt closedAt : Time)
    (hstate : issue.State = some CLOSED) (hcreated : issue.CreatedAt = some createdAt)
    (hclosed : issue.ClosedAt = some closedAt)
    (hsec : createdAt.Sub closedAt % 1000000000 = 0) :
    itemAge now issue = some (Int.tdiv (createdAt.Sub closedAt) 86400000000000) := by
  obtain ⟨hmin, hmax⟩ := sub_bounds createdAt closedAt
  simp [itemAge, hstate, hcreated, hclosed, wholeDays_eq_tdiv _ hmin hmax hsec]

theorem itemAge_closed_witness :
    threeDaysExample.State = some CLOSED ∧
    threeDaysExample.CreatedAt = some ⟨0, 0, 0⟩ ∧
    threeDaysExample.ClosedAt = some ⟨259200, 0, 0⟩ ∧
    (⟨0, 0, 0⟩ : Time).Sub ⟨259200, 0, 0⟩ % 1000000000 = 0 ∧
    itemAge ⟨1709834400, 0, 0⟩ threeDaysExample = some (-3) := by
  refine ⟨rfl, rfl, rfl, by decide, ?_⟩
  rw [itemAge_closed ⟨1709834400, 0, 0⟩ threeDaysExample ⟨0, 0, 0⟩ ⟨259200, 0, 0⟩ rfl rfl rfl
    (by decide)]
  decide

/-- C4, the counterexample: for an item closed three days and a half after its
creation the duration is -84 hours, `display` computes the age -3, and the
floor of the quotient by 24 is -4. -/
theorem itemAge_closed_not_floor :
    Hours ((⟨0, 0, 0⟩ : Time).Sub ⟨302400, 0, 0⟩) = -84 ∧
    itemAge ⟨1709834400, 0, 0⟩ halfDayExample = some (-3) ∧
    ⌊Hours ((⟨0, 0, 0⟩ : Time).Sub ⟨302400, 0, 0⟩) / 24⌋ = -4 := by
  decide!

end IssueTracker
